import Mathlib

/-!
Verification development for the vite-ember-ssr-server repository.

Shallow embedding conventions:
- JavaScript strings are Lean `String`s or `List Char`s (the latter where
  character-level reasoning is needed).
- A possibly-undefined JavaScript value is an `Option`; `none` is `undefined`.
- JavaScript truthiness of a string: `undefined` and the empty string are
  falsy, every other string is truthy.
- Code that can throw is given an `Except` result type; `.error` is a thrown
  exception, `.ok` a normal return.
- Host facilities (file system, `require.resolve`, `path` functions) are
  passed in as explicit parameters, so theorems quantify over them.
-/

/-! ### SsrPaths (src/utils/ssr-paths.js, bundled in utils/get-package-name.js) -/

/-- JavaScript `a || b` on a possibly-undefined string: the empty string and
`undefined` are falsy. -/
def jsOrStr (a b : Option String) : Option String :=
  match a with
  | some s => if s = "" then b else some s
  | none => b

/-- JavaScript truthiness of a possibly-undefined string. -/
def jsTruthy (a : Option String) : Bool :=
  match a with
  | some s => !(s = "")
  | none => false

/-- State of an `SsrPaths` object after `setPaths`. -/
structure SsrPathsState where
  distPath : Option String
  clientPath : Option String
  ssrPath : Option String
  hasPath : Bool
  deriving DecidableEq, Repr

/-- `SsrPaths.setPaths({ distPath, clientPath, ssrPath })`:
`this.distPath = distPath; this.clientPath = clientPath || distPath || ssrPath;`
`this.ssrPath = ssrPath || distPath || clientPath;`
`this.hasPath = !!(distPath || clientPath || ssrPath);`. -/
def setPaths (distPath clientPath ssrPath : Option String) : SsrPathsState :=
  { distPath := distPath
    clientPath := jsOrStr clientPath (jsOrStr distPath ssrPath)
    ssrPath := jsOrStr ssrPath (jsOrStr distPath clientPath)
    hasPath := jsTruthy (jsOrStr distPath (jsOrStr clientPath ssrPath)) }

/-! ### getPackageName (src/utils/get-package-name.js) -/

/-- JavaScript `String.prototype.split('/')`: splitting the empty string
yields `[""]`. -/
def splitOnSlash : List Char → List Char → List (List Char)
  | [], acc => [acc.reverse]
  | c :: cs, acc =>
      if c = '/' then acc.reverse :: splitOnSlash cs []
      else splitOnSlash cs (c :: acc)

/-- `getPackageName(modulePath)`: the first path segment, or the first two
segments joined by `/` when the path begins with `@`.  (When a scoped name
has no second segment, JavaScript string concatenation of `undefined`
produces the text `undefined`; modelled by `getD`.) -/
def getPackageName (modulePath : List Char) : List Char :=
  let parts := splitOnSlash modulePath []
  if modulePath.head? = some '@' then
    parts.headD [] ++ '/' :: (parts.drop 1).headD "undefined".toList
  else
    parts.headD []

/-! ### buildWhitelistedRequire (src/ssr-schema.js) -/

/-- Outcome of `resolve.sync(moduleName, { basedir: ssrPath })`. -/
inductive ResolveOutcome where
  /-- Resolution succeeded with a concrete path. -/
  | ok (path : List Char)
  /-- Resolution threw an error with `code === 'MODULE_NOT_FOUND'`. -/
  | moduleNotFound
  /-- Resolution threw some other error. -/
  | otherError (e : String)
  deriving DecidableEq, Repr

/-- The host facilities the whitelisted require closure uses.  `requireByPath`
and `requireByName` stand for Node `require`: calling either evaluates the
module's code and returns its exports (represented opaquely by `α`). -/
structure RequireHost (α : Type) where
  resolveSync : List Char → ResolveOutcome
  requireByPath : List Char → α
  requireByName : List Char → α

/-- Errors thrown by the sandbox require function. -/
inductive SandboxRequireError where
  /-- The plain `Error` thrown for a non-whitelisted package; it carries the
  module name and the package name it reports. -/
  | moduleNotAllowed (moduleName packageName : List Char)
  /-- A resolution error other than `MODULE_NOT_FOUND`, rethrown. -/
  | resolveFailed (e : String)
  deriving DecidableEq, Repr

/-- The message text of the module-not-allowed error, naming the specifier
and its package (from `buildWhitelistedRequire`). -/
def moduleNotAllowedMessage (moduleName packageName : List Char) : List Char :=
  "Unable to require module '".toList ++ moduleName ++
  "' in EmberSsr because its package '".toList ++ packageName ++
  "' was not explicitly allowed in 'ssrDependencies' in your package.json.".toList

/-- The closure returned by `buildWhitelistedRequire(whitelist, ssrPath)`,
applied to a module name.  Faithful to the source: the package name is
checked against the whitelist; only in the whitelisted branch is any
resolution or require (module evaluation) performed. -/
def sandboxRequire (host : RequireHost α) (whitelist : List (List Char))
    (moduleName : List Char) : Except SandboxRequireError α :=
  let packageName := getPackageName moduleName
  let isWhitelisted := whitelist.contains packageName
  if isWhitelisted then
    match host.resolveSync moduleName with
    | .ok resolvedModulePath => .ok (host.requireByPath resolvedModulePath)
    | .moduleNotFound => .ok (host.requireByName moduleName)
    | .otherError e => .error (.resolveFailed e)
  else
    .error (.moduleNotAllowed moduleName packageName)

/-! ### EmberApp.resolveImport and the module link path (src/ember-app.js) -/

/-- Host facilities used by `resolveImport`: the `path` functions, the
`statSync(...)?.isFile()` check, and `require.resolve` (the host's standard
resolution).  All are explicit parameters of the embedding. -/
structure ImportHost where
  dirname : List Char → List Char
  /-- `resolve(base, segment)` from `node:path`. -/
  resolvePath : List Char → List Char → List Char
  normalize : List Char → List Char
  isFile : List Char → Bool
  requireResolve : List Char → List Char

/-- `specifier.startsWith('.')`. -/
def startsWithDot (s : List Char) : Bool :=
  match s with
  | '.' :: _ => true
  | _ => false

/-- One entry of the `attempts` array in `resolveImport`. -/
structure ResolveAttempt where
  file : Option (List Char) := none
  ext : Option (List Char) := none

/-- The `attempts` array: exact path, implicit `index.js`, `.mjs`, `.js`. -/
def resolveAttempts : List ResolveAttempt :=
  [{}, { file := some "index.js".toList },
   { ext := some ".mjs".toList }, { ext := some ".js".toList }]

/-- The candidate path an attempt produces from `resolvedPath`. -/
def attemptPath (h : ImportHost) (resolvedPath : List Char) (a : ResolveAttempt) :
    List Char :=
  let p := match a.file with
    | some f => h.resolvePath resolvedPath f
    | none => resolvedPath
  match a.ext with
  | some e => p ++ e
  | none => p

/-- The `for ... break` loop over `attempts`: the first candidate that exists
as a regular file, if any. -/
def resolveLoop (h : ImportHost) (resolvedPath : List Char) :
    List ResolveAttempt → Option (List Char)
  | [] => none
  | a :: rest =>
      let p := attemptPath h resolvedPath a
      if h.isFile p then some p else resolveLoop h resolvedPath rest

/-- `EmberApp.resolveImport(specifier, importerPath)`.  Non-relative
specifiers go straight to `require.resolve(specifier)`; relative ones are
resolved against the importer's directory and tried through the attempts
loop, falling back to `require.resolve(specifier)`. -/
def resolveImport (h : ImportHost) (specifier importerPath : List Char) : List Char :=
  if !startsWithDot specifier then
    h.requireResolve specifier
  else
    let resolvedPath := h.normalize (h.resolvePath (h.dirname importerPath) specifier)
    match resolveLoop h resolvedPath resolveAttempts with
    | some foundPath => foundPath
    | none => h.requireResolve specifier

/-- The `link` callback built by `EmberApp.buildLink`: it resolves the
specifier with `resolveImport` and then unconditionally builds and
evaluates the module found there (`module.evaluate()`).  `evalModule`
stands for that evaluation; it is applied to whatever path `resolveImport`
returns, with no whitelist check anywhere on this path. -/
def linkEvaluate (h : ImportHost) (evalModule : List Char → α)
    (specifier base : List Char) : α :=
  evalModule (resolveImport h specifier base)

/-- The four candidate paths, in the source's fixed order. -/
def resolveCandidates (h : ImportHost) (resolvedPath : List Char) : List (List Char) :=
  [resolvedPath,
   h.resolvePath resolvedPath "index.js".toList,
   resolvedPath ++ ".mjs".toList,
   resolvedPath ++ ".js".toList]

/-! ### EmberApp.buildApp (src/ember-app.js) -/

/-- A `createSsrApp` export: either a function (carrying the application it
would construct) or some non-function value. -/
inductive FactoryExport (φ : Type) where
  | fn (app : φ)
  | notFn
  deriving DecidableEq, Repr

/-- What one entry script's evaluation yields.  `evalError` models
`module.evaluate()` throwing; `evaluated exp` models a completed evaluation
whose namespace optionally exports `createSsrApp`. -/
inductive ScriptOutcome (φ : Type) where
  /-- The script threw during evaluation (caught; `buildApp` returns null). -/
  | evalError (e : String)
  /-- The script evaluated; `exp` is `module.namespace?.createSsrApp`. -/
  | evaluated (exp : Option (FactoryExport φ))
  deriving DecidableEq, Repr

/-- The log line printed when no usable application factory was found. -/
def factoryMissingLog : String :=
  "Failed to load Ember app from app.js, make sure it was built for FastBoot with the `ember fastboot:build` command."

/-- The log line printed when a script threw during evaluation. -/
def ssrExceptionLog (e : String) : String := "ssr exception " ++ e

/-- The loop body of `buildApp`: fold over the scripts, remembering the first
non-null `createSsrApp` export (`createSsrApp ??= ...`); a script that
throws makes `buildApp` log and return `null` immediately. -/
def buildAppLoop (acc : Option (FactoryExport φ)) :
    List (ScriptOutcome φ) → Option (FactoryExport φ) × List String
  | [] => (acc, [])
  | .evalError e :: _ => (none, [ssrExceptionLog e])
  | .evaluated exp :: rest =>
      match acc with
      | some a => buildAppLoop (some a) rest
      | none => buildAppLoop exp rest

/-- `EmberApp.buildApp`, over the outcomes of its entry scripts.  The result
is `.ok` of a pair: the app context (`none` models the JavaScript `null`
returns) and the console log lines.  The `Except` layer records that the
JavaScript function can also end by throwing; these branches never throw,
they log and return `null`. -/
def buildApp (scripts : List (ScriptOutcome φ)) :
    Except String (Option φ × List String) :=
  match buildAppLoop none scripts with
  | (_, log :: logs) => .ok (none, log :: logs)
  | (some (.fn app), []) => .ok (some app, [])
  | (some .notFn, []) => .ok (none, [factoryMissingLog])
  | (none, []) => .ok (none, [factoryMissingLog])

/-! ### EmberSsr resilient handling (src/ember-ssr.js, unnamed part_004) -/

/-- The visit result as `EmberSsr.visit` sees it: it only inspects
`result.error`. -/
structure SsrVisitResult where
  error : Option String
  deriving DecidableEq, Repr

/-- `EmberSsr` constructor:
`this.resilient = 'resilient' in options ? Boolean(options.resilient) : false`.
`none` models the option being absent. -/
def ctorResilient (opt : Option Bool) : Bool :=
  match opt with
  | some b => b
  | none => false

/-- Inside `EmberSsr.visit`:
`let resilient = 'resilient' in options ? options.resilient : this.resilient`. -/
def visitResilient (ctorOpt visitOpt : Option Bool) : Bool :=
  match visitOpt with
  | some b => b
  | none => ctorResilient ctorOpt

/-- The tail of `EmberSsr.visit` applied to the result `_app.visit` produced:
`if (!resilient && result?.error) { throw result.error } else { return result }`. -/
def emberSsrVisit (ctorOpt visitOpt : Option Bool) (result : SsrVisitResult) :
    Except String SsrVisitResult :=
  let resilient := visitResilient ctorOpt visitOpt
  if !resilient then
    match result.error with
    | some e => .error e
    | none => .ok result
  else
    .ok result

/-! ### Worker supervision (src/index.js `forkWorker`, unnamed part_003) -/

/-- The `(code, signal)` pair a worker exit handler receives. -/
structure WorkerExit where
  code : Int
  signal : Option String
  deriving DecidableEq, Repr

/-- JavaScript truthiness of the `signal` argument. -/
def signalTruthy (s : Option String) : Bool :=
  match s with
  | some t => !(t = "")
  | none => false

/-- The log line the supervisor writes for a worker exit. -/
inductive ExitLogLine where
  | killedBySignal (signal : String)
  | exitedWithErrorCode (code : Int)
  | exited
  deriving DecidableEq, Repr

/-- The classification in the `worker.on('exit', ...)` handler:
signal first, then non-zero code, then clean exit. -/
def exitLogLine (ev : WorkerExit) : ExitLogLine :=
  if signalTruthy ev.signal then .killedBySignal (ev.signal.getD "")
  else if ev.code ≠ 0 then .exitedWithErrorCode ev.code
  else .exited

/-- Supervisor-side state relevant to crash recovery: whether a `shutdown`
message has been broadcast (`stop()`), how many workers have been forked,
and the log. -/
structure SupervisorState where
  shutdownBroadcast : Bool
  forkCount : Nat
  log : List ExitLogLine
  deriving DecidableEq, Repr

/-- Events the supervisor reacts to in this fragment. -/
inductive SupervisorEvent where
  /-- `stop()` broadcasts `{ event: 'shutdown' }` to every worker. -/
  | broadcastShutdown
  /-- A worker process exited with the given code/signal. -/
  | workerExit (ev : WorkerExit)
  deriving DecidableEq, Repr

/-- One supervisor step.  The `exit` handler installed by `forkWorker` logs
the exit cause and calls `this.forkWorker()` again; the source has no check
of any shutdown state in that handler. -/
def supervisorStep (s : SupervisorState) : SupervisorEvent → SupervisorState
  | .broadcastShutdown => { s with shutdownBroadcast := true }
  | .workerExit ev =>
      { s with
        log := s.log ++ [exitLogLine ev]
        forkCount := s.forkCount + 1 }

/-! ### Sandbox queue and the visit replacement-build discipline
(src/ember-app.js `visit`; the `Queue` class itself lives in
src/utils/queue.js, which is not among these sources) -/

/-- Modelled from the spec: the sandbox `Queue` of src/utils/queue.js, which
is not among these sources.  Per the spec's Sandbox Pool section: the pool
holds at most `maxSize` outstanding entries; `enqueue` schedules one new
pending build (capped at `maxSize`); `dequeue` pops the oldest pending
entry, or builds one cold when the queue is empty.  Only the entry count
and the call counts are modelled. -/
structure QueueState where
  maxSize : Nat
  pending : Nat
  enqueueCalls : Nat
  deriving DecidableEq, Repr

/-- Modelled from the spec: `Queue#enqueue` schedules one new pending entry,
never exceeding `maxSize`. -/
def queueEnqueue (q : QueueState) : QueueState :=
  if q.pending < q.maxSize then
    { q with pending := q.pending + 1, enqueueCalls := q.enqueueCalls + 1 }
  else
    { q with enqueueCalls := q.enqueueCalls + 1 }

/-- Modelled from the spec: `Queue#dequeue` pops the oldest pending entry
(pre-built) or falls back to a cold on-demand build. -/
def queueDequeue (q : QueueState) : QueueState × Bool :=
  if q.pending > 0 then ({ q with pending := q.pending - 1 }, true)
  else (q, false)

/-- `n` successive `enqueue` calls. -/
def enqueueN (n : Nat) (q : QueueState) : QueueState :=
  match n with
  | 0 => q
  | m + 1 => enqueueN m (queueEnqueue q)

/-- `n` successive `dequeue` calls (dropping the pre-built flags). -/
def dequeueN (n : Nat) (q : QueueState) : QueueState :=
  match n with
  | 0 => q
  | m + 1 => dequeueN m (queueDequeue q).1

/-- `EmberApp.buildSandboxQueue(k)`: a fresh queue enqueued `k` times. -/
def initQueue (k : Nat) : QueueState :=
  enqueueN k { maxSize := k, pending := 0, enqueueCalls := 0 }

/-- How one call to `EmberApp.visit` ends, as far as the queue discipline is
concerned. -/
inductive VisitOutcome where
  /-- `await queueObject.item` rejected, or the built context was `null` and
  destructuring `const { app, context } = appContext` threw: `visit` throws
  before entering its `try` block. -/
  | sandboxBuildFailed
  /-- The visit ran to completion: successfully, with a caught error attached
  to the result, or force-destroyed by the timer.  The `finally` block runs
  and enqueues one replacement build. -/
  | completed
  deriving DecidableEq, Repr

/-- The queue effect of one `EmberApp.visit` call: one dequeue always
happens; the single replacement `enqueue` in the `finally` block happens
only if control reached the `try` block at all. -/
def visitQueueStep (q : QueueState) (outcome : VisitOutcome) : QueueState :=
  let q1 := (queueDequeue q).1
  match outcome with
  | .sandboxBuildFailed => q1
  | .completed => queueEnqueue q1

/-! ### The forced-destroy timer in EmberApp.visit (src/ember-app.js).
`Result` (src/result.js) and `FastBootInfo` (src/ssr-info.js) are not among
these sources; the parts of them this model needs are modelled from the
spec. -/

/-- Modelled from the spec: the VisitResult state of src/result.js, which is
not among these sources.  Per the spec's data model: the result carries an
optional error, is finalized exactly once, and destruction of the
application instance is guarded by an internal destroyed flag. -/
structure ResultState where
  isDestroyed : Bool
  finalized : Bool
  error : Option String
  deriving DecidableEq, Repr

/-- A freshly constructed result. -/
def initialResult : ResultState :=
  { isDestroyed := false, finalized := false, error := none }

/-- Modelled from the spec: `Result#_destroy` destroys at most once, guarded
by the destroyed flag; it reports whether this call actually destroyed
(the timer callback in src/ember-app.js tests its return value). -/
def resultDestroy (r : ResultState) : Bool × ResultState :=
  if r.isDestroyed then (false, r) else (true, { r with isDestroyed := true })

/-- Modelled from the spec: `Result#_finalize` marks the result finalized. -/
def resultFinalize (r : ResultState) : ResultState :=
  { r with finalized := true }

/-- The message of the error the timer callback attaches. -/
def forcedDestructionMessage (n : Nat) : String :=
  "App instance was forcefully destroyed in " ++ toString n ++ "ms"

/-- The `setTimeout` callback in `EmberApp.visit`:
`if (result._destroy()) { result.error = new Error(...) }`. -/
def destroyTimerCallback (n : Nat) (r : ResultState) : ResultState :=
  let (did, r1) := resultDestroy r
  if did then { r1 with error := some (forcedDestructionMessage n) } else r1

/-- The `finally` block of `EmberApp.visit`: `result._finalize()`, then
`result._destroy()`, then `clearTimeout(destroyAppInstanceTimer)`. -/
def visitFinally (r : ResultState) : ResultState :=
  (resultDestroy (resultFinalize r)).2

/-- The observable outcome of one `EmberApp.visit(path, options)` call with a
forced-destroy timer, as a function of time.  Times are in milliseconds
from the start of the request. -/
structure VisitTimerTrace where
  /-- When the promise returned by `visit` settles; `none` = never. -/
  settledAt : Option Nat
  /-- The final state of the result object. -/
  result : ResultState
  /-- When the application instance is destroyed; `none` = never. -/
  instanceDestroyedAt : Option Nat
  /-- Whether the timer callback ran. -/
  timerFired : Bool
  /-- Whether the `finally` block (which calls `clearTimeout`) ran. -/
  finallyRan : Bool
  deriving DecidableEq, Repr

/-- `EmberApp.visit` with `destroyAppInstanceInMs = n` where `n > 0` arms the
timer, and an error-free `_visit` whose last step awaits the
application-declared deferred-rendering promise, which resolves at time
`deferredAt` (or never, for `none`).

Derived from the source's control flow:
- The code has no `Promise.race` (the source itself carries the comment
  `TODO: Use Promise.race here`): `await this._visit(...)` settles only when
  the deferred promise does, so when the deferred promise never resolves the
  `try`/`finally` continuation never runs and the promise returned by
  `visit` never settles.  The timer still fires at `n`, destroys the
  instance and attaches the forced-destruction error to the (never
  returned) result.
- When the deferred promise resolves at `t < n`, the continuation runs
  first: the `finally` block finalizes, destroys, and clears the timer,
  which therefore never fires; no error is attached.
- When it resolves at `t ≥ n`, the timer has already fired at `n`
  (destroying the instance and attaching the error); the continuation then
  runs at `t` and the guarded `_destroy` in `finally` is a no-op. -/
def visitTimerModel (n : Nat) (deferredAt : Option Nat) : VisitTimerTrace :=
  match deferredAt with
  | none =>
      if 0 < n then
        { settledAt := none
          result := destroyTimerCallback n initialResult
          instanceDestroyedAt := some n
          timerFired := true
          finallyRan := false }
      else
        { settledAt := none, result := initialResult,
          instanceDestroyedAt := none, timerFired := false, finallyRan := false }
  | some t =>
      if 0 < n ∧ n ≤ t then
        { settledAt := some t
          result := visitFinally (destroyTimerCallback n initialResult)
          instanceDestroyedAt := some n
          timerFired := true
          finallyRan := true }
      else
        { settledAt := some t
          result := visitFinally initialResult
          instanceDestroyedAt := some t
          timerFired := false
          finallyRan := true }

/-! ### RegExp serialization (src/regexp.js) -/

/-- A JavaScript RegExp object, by its `source` and `flags` strings.
(`new RegExp(p, f)` is modelled as this pair; for a `p` that is itself the
`source` of an existing RegExp this is exact, since `source` is already in
the normalized form the constructor preserves.) -/
structure JsRegExp where
  source : List Char
  flags : List Char
  deriving DecidableEq, Repr

/-- `serializeRegExp`, in the branch where the argument is a RegExp:
the template string `regexp:/${regex.source}/${regex.flags}`. -/
def serializeRegExp (r : JsRegExp) : List Char :=
  "regexp:/".toList ++ r.source ++ '/' :: r.flags

/-- Whether `(?:\\<d>|[^\u0001])*` accepts `p`: inside a character class
`\1` is the legacy octal escape for U+0001, while `\\\1` outside matches a
backslash followed by the captured delimiter `d`. -/
def delimTokenRun (d : Char) : List Char → Bool
  | [] => true
  | c :: cs =>
      (c == '\\' && (match cs with
        | c2 :: cs2 => c2 == d && delimTokenRun d cs2
        | [] => false))
      || (!(c == '\x01') && delimTokenRun d cs)

/-- An accepting split of `rest` for `((?:\\\1|[^\1])+)\1([^\1]*)$` at
position `j`: group 2 is `rest.take j` (nonempty, hence `1 ≤ j`), position
`j` holds the delimiter again, and group 3 is the remainder, free of
U+0001. -/
def splitOkAt (d : Char) (rest : List Char) (j : Nat) : Bool :=
  decide (1 ≤ j) && (rest.get? j == some d) && delimTokenRun d (rest.take j)
    && (rest.drop (j + 1)).all (fun c => !(c == '\x01'))

/-- The greedy choice of split: the largest accepting `j`, scanning down
from `start`. -/
def findSplit (d : Char) (rest : List Char) : Nat → Option (List Char × List Char)
  | 0 => none
  | j + 1 =>
      if splitOkAt d rest (j + 1) then some (rest.take (j + 1), rest.drop (j + 2))
      else findSplit d rest j

/-- `(.)` in a JavaScript regex does not match line terminators. -/
def isLineTerminator (c : Char) : Bool :=
  c == '\n' || c == '\r' || c == '\u2028' || c == '\u2029'

/-- Model of `matchesSerializedRegExp`: the anchored regex
`^regexp:(.)((?:\\\1|[^\1])+)\1([^\1]*)$` applied to `s`, yielding the
captured delimiter, pattern and flags.  The quantified group 2 is greedy,
so the match uses the largest accepting split. -/
def matchesSerializedRegExp (s : List Char) : Option (Char × List Char × List Char) :=
  match s with
  | 'r' :: 'e' :: 'g' :: 'e' :: 'x' :: 'p' :: ':' :: d :: rest =>
      if isLineTerminator d then none
      else
        match findSplit d rest (rest.length - 1) with
        | some (p, f) => some (d, p, f)
        | none => none
  | _ => none

/-- `deserializeRegExp`: on a match, `new RegExp(match[2], match[3])`;
otherwise the string is returned unchanged. -/
def deserializeRegExp (s : List Char) : Sum JsRegExp (List Char) :=
  match matchesSerializedRegExp s with
  | some (_, p, f) => .inl { source := p, flags := f }
  | none => .inr s

/-! ## Theorems -/

/-- Helper: a concrete `ImportHost` for counterexamples and witnesses: no
candidate file exists, and the host resolver maps a bare specifier into the
host's `node_modules`. -/
def plainImportHost : ImportHost :=
  { dirname := fun _ => "/app".toList
    resolvePath := fun a b => a ++ '/' :: b
    normalize := fun s => s
    isFile := fun _ => false
    requireResolve := fun s => "/node_modules/".toList ++ s ++ "/index.js".toList }

/-- C1, counterexample.  The claim asserts that a bare (non-relative)
specifier whose package is not whitelisted fails with the
module-not-allowed error on every load path, including the script import
graph.  But `resolveImport` performs no whitelist check at all: with an
empty whitelist, the bare specifier `lodash` is resolved through the
host's standard resolution and the module found there is then built and
evaluated by the `link` callback. -/
theorem resolveImport_bare_specifier_bypasses_whitelist :
    resolveImport plainImportHost "lodash".toList "/app/app.js".toList
      = "/node_modules/lodash/index.js".toList
    ∧ linkEvaluate plainImportHost (fun p => "evaluated:".toList ++ p)
        "lodash".toList "/app/app.js".toList
      = "evaluated:/node_modules/lodash/index.js".toList
    ∧ ([] : List (List Char)).contains (getPackageName "lodash".toList) = false := by
  refine ⟨by decide, by decide, by decide⟩

/-- C1, amended.  A non-whitelisted bare specifier fails on the sandbox
`require` path: `sandboxRequire` throws the (plain) module-not-allowed
error, whose message names the specifier and its package, and it does so
without consulting the host's resolver or require (so no code from the
module is evaluated there) — witness the result being independent of the
host.  The script import graph, by contrast, performs no whitelist check
(previous theorem). -/
theorem sandboxRequire_not_whitelisted (host host2 : RequireHost α)
    (whitelist : List (List Char)) (moduleName : List Char)
    (h : whitelist.contains (getPackageName moduleName) = false) :
    sandboxRequire host whitelist moduleName
      = .error (.moduleNotAllowed moduleName (getPackageName moduleName))
    ∧ sandboxRequire host whitelist moduleName
      = sandboxRequire host2 whitelist moduleName
    ∧ (∃ a b, moduleNotAllowedMessage moduleName (getPackageName moduleName)
        = a ++ moduleName ++ b)
    ∧ (∃ a b, moduleNotAllowedMessage moduleName (getPackageName moduleName)
        = a ++ getPackageName moduleName ++ b) := by
  have hmem : getPackageName moduleName ∉ whitelist := by simpa using h
  refine ⟨?_, ?_, ?_, ?_⟩
  · simp [sandboxRequire, hmem]
  · simp [sandboxRequire, hmem]
  · exact ⟨"Unable to require module '".toList,
      "' in EmberSsr because its package '".toList ++ getPackageName moduleName ++
      "' was not explicitly allowed in 'ssrDependencies' in your package.json.".toList,
      by simp [moduleNotAllowedMessage]⟩
  · exact ⟨"Unable to require module '".toList ++ moduleName ++
      "' in EmberSsr because its package '".toList,
      "' was not explicitly allowed in 'ssrDependencies' in your package.json.".toList,
      by simp [moduleNotAllowedMessage]⟩

/-- C1, witness for the amended theorem at a concrete input. -/
theorem sandboxRequire_not_whitelisted_witness :
    sandboxRequire
      { resolveSync := fun _ => .moduleNotFound,
        requireByPath := fun _ => (0 : Nat), requireByName := fun _ => 1 }
      [] "lodash".toList
      = .error (.moduleNotAllowed "lodash".toList (getPackageName "lodash".toList)) :=
  (sandboxRequire_not_whitelisted
    { resolveSync := fun _ => .moduleNotFound,
      requireByPath := fun _ => (0 : Nat), requireByName := fun _ => 1 }
    { resolveSync := fun _ => .moduleNotFound,
      requireByPath := fun _ => (2 : Nat), requireByName := fun _ => 3 }
    [] "lodash".toList (by decide)).1

/-- Helper: the attempts loop computes exactly "first candidate that the
file-system check accepts". -/
theorem resolveLoop_eq_find (h : ImportHost) (rp : List Char) :
    resolveLoop h rp resolveAttempts = (resolveCandidates h rp).find? h.isFile := by
  cases h1 : h.isFile rp <;>
    cases h2 : h.isFile (h.resolvePath rp ['i', 'n', 'd', 'e', 'x', '.', 'j', 's']) <;>
    cases h3 : h.isFile (rp ++ ['.', 'm', 'j', 's']) <;>
    cases h4 : h.isFile (rp ++ ['.', 'j', 's']) <;>
    simp [resolveLoop, resolveAttempts, attemptPath, resolveCandidates,
      List.find?, h1, h2, h3, h4]

/-- C9, confirmed.  For a relative specifier, `resolveImport` tries, in this
fixed order: the exact resolved path, the path joined with `index.js`, the
path with `.mjs` appended, the path with `.js` appended; the first
candidate that the file system reports as a regular file is the result,
and if none exists the bare specifier falls back to the host's standard
resolution.  A non-relative specifier goes directly to the host's standard
resolution. -/
theorem resolveImport_fallback_order (h : ImportHost) (specifier importerPath : List Char) :
    resolveImport h specifier importerPath =
      if startsWithDot specifier then
        ((resolveCandidates h
            (h.normalize (h.resolvePath (h.dirname importerPath) specifier))).find?
          h.isFile).getD (h.requireResolve specifier)
      else
        h.requireResolve specifier := by
  unfold resolveImport
  cases hs : startsWithDot specifier with
  | false => simp
  | true =>
    simp only [Bool.not_true, if_true, ite_true, if_false, ite_false, Bool.false_eq_true]
    rw [resolveLoop_eq_find]
    cases hf : (resolveCandidates h
        (h.normalize (h.resolvePath (h.dirname importerPath) specifier))).find? h.isFile <;>
      simp [hf]

/-- C10, confirmed.  After `setPaths` (also run by the constructor):
`clientPath` is the provided `clientPath`, else `distPath`, else `ssrPath`;
`ssrPath` is the provided `ssrPath`, else `distPath`, else `clientPath`;
`hasPath` holds exactly when at least one path was provided; and providing
`distPath` alone makes it serve as both roles.  Provided paths are
non-empty strings (the empty string is falsy in JavaScript). -/
theorem setPaths_role_defaults (dp cp sp : Option String)
    (hdp : ∀ s, dp = some s → s ≠ "")
    (hcp : ∀ s, cp = some s → s ≠ "")
    (hsp : ∀ s, sp = some s → s ≠ "") :
    (setPaths dp cp sp).clientPath = (cp <|> dp <|> sp)
    ∧ (setPaths dp cp sp).ssrPath = (sp <|> dp <|> cp)
    ∧ ((setPaths dp cp sp).hasPath = true ↔ (dp ≠ none ∨ cp ≠ none ∨ sp ≠ none))
    ∧ (∀ d, dp = some d → cp = none → sp = none →
        (setPaths dp cp sp).clientPath = some d
        ∧ (setPaths dp cp sp).ssrPath = some d) := by
  cases dp with
  | none =>
    cases cp with
    | none =>
      cases sp with
      | none => simp [setPaths, jsOrStr, jsTruthy]
      | some s => simp [setPaths, jsOrStr, jsTruthy, hsp s rfl]
    | some c =>
      cases sp with
      | none => simp [setPaths, jsOrStr, jsTruthy, hcp c rfl]
      | some s => simp [setPaths, jsOrStr, jsTruthy, hcp c rfl, hsp s rfl]
  | some d =>
    cases cp with
    | none =>
      cases sp with
      | none => simp [setPaths, jsOrStr, jsTruthy, hdp d rfl]
      | some s => simp [setPaths, jsOrStr, jsTruthy, hdp d rfl, hsp s rfl]
    | some c =>
      cases sp with
      | none => simp [setPaths, jsOrStr, jsTruthy, hdp d rfl, hcp c rfl]
      | some s => simp [setPaths, jsOrStr, jsTruthy, hdp d rfl, hcp c rfl, hsp s rfl]

/-- C10, witness: `distPath` alone serves as both roles and sets `hasPath`. -/
theorem setPaths_role_defaults_witness :
    (setPaths (some "/dist") none none).clientPath = some "/dist"
    ∧ (setPaths (some "/dist") none none).ssrPath = some "/dist" :=
  (setPaths_role_defaults (some "/dist") none none
    (fun _ h => by simpa using congrArg (fun o => o ≠ some "") h)
    (fun _ h => by cases h) (fun _ h => by cases h)).2.2.2 "/dist" rfl rfl rfl

/-- C3, counterexample.  With no resilient setting configured anywhere
(neither constructor nor visit options), a visit whose result carries a
boot/render error has that error re-raised by `EmberSsr.visit` — the
opposite of the claimed resilient default. -/
theorem emberSsrVisit_default_reraises :
    emberSsrVisit none none { error := some "boot failed" } = .error "boot failed" := by
  rfl

/-- C3, amended.  The default is non-resilient: with no resilient setting
configured, `EmberSsr.visit` re-raises the error attached to the result;
only when resilient mode is explicitly configured (visit option, else
constructor option) does the promise resolve normally with the error left
attached to the result.  Error-free results always resolve normally. -/
theorem emberSsrVisit_resilient_policy (ctorOpt visitOpt : Option Bool)
    (r : SsrVisitResult) (e : String) :
    visitResilient none none = false
    ∧ (visitResilient ctorOpt visitOpt = false → r.error = some e →
        emberSsrVisit ctorOpt visitOpt r = .error e)
    ∧ (visitResilient ctorOpt visitOpt = true →
        emberSsrVisit ctorOpt visitOpt r = .ok r)
    ∧ (r.error = none → emberSsrVisit ctorOpt visitOpt r = .ok r) := by
  refine ⟨rfl, ?_, ?_, ?_⟩
  · intro hres herr
    simp [emberSsrVisit, hres, herr]
  · intro hres
    simp [emberSsrVisit, hres]
  · intro herr
    cases hres : visitResilient ctorOpt visitOpt <;>
      simp [emberSsrVisit, hres, herr]

/-- C3, witness for the amended theorem at concrete inputs. -/
theorem emberSsrVisit_resilient_policy_witness :
    emberSsrVisit (some true) none { error := some "x" } = .ok { error := some "x" } :=
  (emberSsrVisit_resilient_policy (some true) none { error := some "x" } "x").2.2.1 rfl

/-- C4, counterexample.  An artifact whose single entry script evaluates
without exporting the application factory: `buildApp` does not throw any
error — it logs the failure message and returns `null` (no sandbox).  The
claimed `ApplicationFactoryMissingError` does not exist in this code
path. -/
theorem buildApp_no_factory_returns_null :
    buildApp (φ := Unit) [ScriptOutcome.evaluated none]
      = .ok (none, [factoryMissingLog]) := by
  rfl

/-- Helper: with no script throwing during evaluation, the `buildApp` loop
produces no exception log lines. -/
theorem buildAppLoop_no_eval_error (scripts : List (ScriptOutcome φ))
    (hEval : ∀ s ∈ scripts, ∀ e, s ≠ .evalError e) :
    ∀ acc, (buildAppLoop acc scripts).2 = [] := by
  induction scripts with
  | nil => intro acc; rfl
  | cons s rest ih =>
    intro acc
    cases s with
    | evalError e => exact absurd rfl (hEval _ (by simp) e)
    | evaluated exp =>
      have hrest : ∀ s ∈ rest, ∀ e, s ≠ ScriptOutcome.evalError e := by
        intro s hs e
        exact hEval s (by simp [hs]) e
      cases acc with
      | some a => simpa [buildAppLoop] using ih hrest (some a)
      | none => simpa [buildAppLoop] using ih hrest exp

/-- Helper: if no script exports a function factory, the accumulated
`createSsrApp` value is never a function. -/
theorem buildAppLoop_no_factory (scripts : List (ScriptOutcome φ))
    (hNoFactory : ∀ s ∈ scripts, ∀ a, s ≠ .evaluated (some (.fn a))) :
    ∀ acc, (∀ a, acc ≠ some (FactoryExport.fn a)) →
      ∀ a, (buildAppLoop acc scripts).1 ≠ some (FactoryExport.fn a) := by
  induction scripts with
  | nil => intro acc hacc a; simpa [buildAppLoop] using hacc a
  | cons s rest ih =>
    intro acc hacc a
    have hrest : ∀ s ∈ rest, ∀ b, s ≠ ScriptOutcome.evaluated (some (FactoryExport.fn b)) := by
      intro s hs b
      exact hNoFactory s (by simp [hs]) b
    cases s with
    | evalError e => simp [buildAppLoop]
    | evaluated exp =>
      cases acc with
      | some x =>
        have hstep := ih hrest (some x) hacc a
        simpa [buildAppLoop] using hstep
      | none =>
        have hexp : ∀ b, exp ≠ some (FactoryExport.fn b) := by
          intro b hb
          exact (hNoFactory (ScriptOutcome.evaluated exp) (by simp) b) (by rw [hb])
        have hstep := ih hrest exp hexp a
        simpa [buildAppLoop] using hstep

/-- C4, amended.  For every artifact whose entry scripts all evaluate
without throwing and without exporting a function-valued application
factory, `buildApp` yields no sandbox and logs the failure message, and it
does not throw: the result is a normal return of `null`, not an
`ApplicationFactoryMissingError` (which does not exist in this code). -/
theorem buildApp_factory_missing (scripts : List (ScriptOutcome φ))
    (hEval : ∀ s ∈ scripts, ∀ e, s ≠ .evalError e)
    (hNoFactory : ∀ s ∈ scripts, ∀ a, s ≠ .evaluated (some (.fn a))) :
    buildApp scripts = .ok (none, [factoryMissingLog]) := by
  have hlog := buildAppLoop_no_eval_error scripts hEval none
  have hfac := buildAppLoop_no_factory scripts hNoFactory none (by simp)
  unfold buildApp
  cases hres : buildAppLoop none scripts with
  | mk fst snd =>
    rw [hres] at hlog hfac
    subst hlog
    cases fst with
    | none => rfl
    | some x =>
      cases x with
      | fn a => exact (hfac a rfl).elim
      | notFn => rfl

/-- C4, witness for the amended theorem at a concrete input. -/
theorem buildApp_factory_missing_witness :
    buildApp (φ := Unit) [ScriptOutcome.evaluated (some .notFn), ScriptOutcome.evaluated none]
      = .ok (none, [factoryMissingLog]) :=
  buildApp_factory_missing
    [ScriptOutcome.evaluated (some .notFn), ScriptOutcome.evaluated none]
    (by intro s hs e; simp only [List.mem_cons, List.not_mem_nil, or_false] at hs
        rcases hs with rfl | rfl <;> simp)
    (by intro s hs a; simp only [List.mem_cons, List.not_mem_nil, or_false] at hs
        rcases hs with rfl | rfl <;> simp)

/-- C7, counterexample.  After a shutdown broadcast, a worker exiting
cleanly is still replaced: the exit handler forks unconditionally, so the
fork count increases despite `shutdownBroadcast = true`. -/
theorem supervisorStep_respawns_after_shutdown :
    (supervisorStep
      (supervisorStep { shutdownBroadcast := false, forkCount := 2, log := [] }
        .broadcastShutdown)
      (.workerExit { code := 0, signal := none })).forkCount = 3
    ∧ (supervisorStep { shutdownBroadcast := false, forkCount := 2, log := [] }
        .broadcastShutdown).shutdownBroadcast = true := by
  exact ⟨rfl, rfl⟩

/-- C7, amended.  On every worker exit the supervisor logs the exit cause —
distinguishing death by signal, non-zero exit code, and clean exit — and
forks exactly one replacement worker; this respawn is unconditional and in
particular also happens after a shutdown broadcast (the handler consults
no shutdown state). -/
theorem supervisorStep_exit_policy (s : SupervisorState) (ev : WorkerExit) :
    (supervisorStep s (.workerExit ev)).log = s.log ++ [exitLogLine ev]
    ∧ (supervisorStep s (.workerExit ev)).forkCount = s.forkCount + 1
    ∧ (supervisorStep s (.workerExit ev)).shutdownBroadcast = s.shutdownBroadcast
    ∧ (∀ sg, ev.signal = some sg → sg ≠ "" →
        exitLogLine ev = .killedBySignal sg)
    ∧ (signalTruthy ev.signal = false → ev.code ≠ 0 →
        exitLogLine ev = .exitedWithErrorCode ev.code)
    ∧ (signalTruthy ev.signal = false → ev.code = 0 →
        exitLogLine ev = .exited) := by
  refine ⟨rfl, rfl, rfl, ?_, ?_, ?_⟩
  · intro sg hsg hne
    simp [exitLogLine, signalTruthy, hsg, hne]
  · intro hsig hcode
    simp [exitLogLine, hsig, hcode]
  · intro hsig hcode
    simp [exitLogLine, hsig, hcode]

/-- C7, witness for the amended theorem at a concrete input. -/
theorem supervisorStep_exit_policy_witness :
    exitLogLine { code := 1, signal := none } = .exitedWithErrorCode 1 :=
  (supervisorStep_exit_policy
    { shutdownBroadcast := false, forkCount := 0, log := [] }
    { code := 1, signal := none }).2.2.2.2.1 rfl (by decide)

/-- Helper: `enqueue` and `dequeue` never change `maxSize`. -/
theorem queue_ops_maxSize (q : QueueState) :
    (queueEnqueue q).maxSize = q.maxSize ∧ (queueDequeue q).1.maxSize = q.maxSize := by
  constructor <;> simp [queueEnqueue, queueDequeue] <;> split <;> rfl

/-- Helper: `n` enqueues on a queue with room raise `pending` by `n`. -/
theorem enqueueN_pending (n : Nat) :
    ∀ q : QueueState, q.pending + n ≤ q.maxSize →
      (enqueueN n q).pending = q.pending + n ∧ (enqueueN n q).maxSize = q.maxSize := by
  induction n with
  | zero => intro q _; simp [enqueueN]
  | succ m ih =>
    intro q hq
    have hlt : q.pending < q.maxSize := by omega
    have hstep : (queueEnqueue q).pending = q.pending + 1 ∧
        (queueEnqueue q).maxSize = q.maxSize := by
      simp [queueEnqueue, hlt]
    have := ih (queueEnqueue q) (by omega)
    refine ⟨?_, ?_⟩ <;> simp [enqueueN] <;> omega

/-- Helper: the freshly built queue holds `k` pending entries. -/
theorem initQueue_pending (k : Nat) :
    (initQueue k).pending = k ∧ (initQueue k).maxSize = k := by
  have := enqueueN_pending k { maxSize := k, pending := 0, enqueueCalls := 0 } (by simp)
  simpa [initQueue] using this

/-- Helper: `n` dequeues on a queue with at least `n` pending entries lower
`pending` by `n`. -/
theorem dequeueN_pending (n : Nat) :
    ∀ q : QueueState, n ≤ q.pending →
      (dequeueN n q).pending = q.pending - n ∧ (dequeueN n q).maxSize = q.maxSize := by
  induction n with
  | zero => intro q _; simp [dequeueN]
  | succ m ih =>
    intro q hq
    have hpos : 0 < q.pending := by omega
    have hstep : (queueDequeue q).1.pending = q.pending - 1 ∧
        (queueDequeue q).1.maxSize = q.maxSize := by
      simp [queueDequeue, hpos]
    have := ih (queueDequeue q).1 (by omega)
    refine ⟨?_, ?_⟩ <;> simp [dequeueN] <;> omega

/-- Helper: a completed visit leaves a full queue full. -/
theorem visitQueueStep_completed (q : QueueState)
    (hfull : q.pending = q.maxSize) (hk : 1 ≤ q.maxSize) :
    (visitQueueStep q .completed).pending = q.maxSize
    ∧ (visitQueueStep q .completed).maxSize = q.maxSize := by
  have hpos : 0 < q.pending := by omega
  have hd : (queueDequeue q).1.pending = q.pending - 1 ∧
      (queueDequeue q).1.maxSize = q.maxSize := by
    simp [queueDequeue, hpos]
  have hroom : (queueDequeue q).1.pending < (queueDequeue q).1.maxSize := by omega
  constructor <;> simp [visitQueueStep, queueEnqueue, hroom] <;> omega

/-- C8, counterexample.  With `maxQueueSize = 1`, one dequeue whose entry
turns out to be a failed sandbox build ends with `visit` throwing before
its `try` block, so no replacement is enqueued and the pending count stays
at 0 instead of returning to 1.  A completed visit, by contrast, restores
it to 1. -/
theorem visitQueue_build_failure_no_replacement :
    (visitQueueStep (initQueue 1) .sandboxBuildFailed).pending = 0
    ∧ (initQueue 1).pending = 1
    ∧ (visitQueueStep (initQueue 1) .completed).pending = 1 := by
  decide

/-- C8, amended.  For every visit that reaches its `try` block (success,
caught error, or forced destruction), the dequeue is followed by exactly
one replacement `enqueue`, and the pool self-stabilizes: starting from the
freshly built queue of size `k ≥ 1`, any sequence of such visits keeps the
pending count at `k`; in particular `k` dequeues followed by their `k`
replacement enqueues return the count to exactly `k`.  Visits whose
dequeued sandbox build failed schedule no replacement (counterexample
above). -/
theorem visitQueue_self_stabilizing (k : Nat) (hk : 1 ≤ k)
    (outcomes : List VisitOutcome) (hc : ∀ o ∈ outcomes, o = .completed) :
    (outcomes.foldl visitQueueStep (initQueue k)).pending = k
    ∧ (enqueueN k (dequeueN k (initQueue k))).pending = k
    ∧ (∀ q : QueueState, (visitQueueStep q .completed).enqueueCalls
        = q.enqueueCalls + 1) := by
  obtain ⟨hip, him⟩ := initQueue_pending k
  refine ⟨?_, ?_, ?_⟩
  · have main : ∀ (outs : List VisitOutcome) (q : QueueState),
        (∀ o ∈ outs, o = VisitOutcome.completed) →
        q.pending = q.maxSize → 1 ≤ q.maxSize →
        (outs.foldl visitQueueStep q).pending = q.maxSize := by
      intro outs
      induction outs with
      | nil => intro q _ hfull _; simpa using hfull
      | cons o rest ih =>
        intro q hco hfull hk1
        have ho : o = VisitOutcome.completed := hco o (by simp)
        subst ho
        obtain ⟨h1, h2⟩ := visitQueueStep_completed q hfull hk1
        have := ih (visitQueueStep q .completed)
          (fun o ho => hco o (by simp [ho])) (by omega) (by omega)
        simpa [h2] using this
    have := main outcomes (initQueue k) hc (by omega) (by omega)
    omega
  · obtain ⟨hd1, hd2⟩ := dequeueN_pending k (initQueue k) (by omega)
    obtain ⟨he1, he2⟩ := enqueueN_pending k (dequeueN k (initQueue k)) (by omega)
    omega
  · intro q
    have hd : (queueDequeue q).1.enqueueCalls = q.enqueueCalls := by
      unfold queueDequeue
      split <;> rfl
    unfold visitQueueStep queueEnqueue
    split
    · simp_all
    · simp only []
      split <;> simp [hd]

/-- C8, witness for the amended theorem at a concrete input. -/
theorem visitQueue_self_stabilizing_witness :
    ([VisitOutcome.completed, VisitOutcome.completed].foldl
      visitQueueStep (initQueue 2)).pending = 2 :=
  (visitQueue_self_stabilizing 2 (by decide)
    [VisitOutcome.completed, VisitOutcome.completed]
    (by intro o ho; simp only [List.mem_cons, List.not_mem_nil, or_false] at ho
        rcases ho with rfl | rfl <;> rfl)).1

/-- C2, counterexample.  `destroyAppInstanceInMs = 50` with a deferred-render
promise that never resolves: the timer fires at 50ms, destroys the
instance and attaches the forced-destruction error to the result — but the
promise returned by `visit` never settles (there is no `Promise.race`;
the source's own comment records this as a TODO), contradicting the claim
that `visit` resolves in approximately 50ms with that result. -/
theorem visitTimer_never_settles :
    (visitTimerModel 50 none).settledAt = none
    ∧ (visitTimerModel 50 none).timerFired = true
    ∧ (visitTimerModel 50 none).instanceDestroyedAt = some 50
    ∧ (visitTimerModel 50 none).result.error = some (forcedDestructionMessage 50)
    ∧ (visitTimerModel 50 none).finallyRan = false := by
  refine ⟨rfl, rfl, rfl, rfl, rfl⟩

/-- C2, amended.  With `destroyAppInstanceInMs = n > 0`: if the deferred
promise never resolves, the timer fires at `n`, forcefully destroys the
instance and attaches the forced-destruction error, but the promise
returned by `visit` never settles (the `finally` block never runs, so the
timer is also never cleared).  If the visit completes naturally at `t < n`,
the timer never fires, the `finally` block cancels it, and no
forced-destruction error is attached.  If natural completion comes at
`t ≥ n`, the already-fired timer's error remains on the settled result. -/
theorem visitTimer_policy (n : Nat) (hn : 0 < n) (t : Nat) :
    ((visitTimerModel n none).settledAt = none
      ∧ (visitTimerModel n none).instanceDestroyedAt = some n
      ∧ (visitTimerModel n none).result.error = some (forcedDestructionMessage n)
      ∧ (visitTimerModel n none).finallyRan = false)
    ∧ (t < n →
        (visitTimerModel n (some t)).settledAt = some t
        ∧ (visitTimerModel n (some t)).result.error = none
        ∧ (visitTimerModel n (some t)).timerFired = false
        ∧ (visitTimerModel n (some t)).finallyRan = true)
    ∧ (n ≤ t →
        (visitTimerModel n (some t)).settledAt = some t
        ∧ (visitTimerModel n (some t)).result.error = some (forcedDestructionMessage n)
        ∧ (visitTimerModel n (some t)).instanceDestroyedAt = some n
        ∧ (visitTimerModel n (some t)).finallyRan = true) := by
  refine ⟨?_, ?_, ?_⟩
  · simp [visitTimerModel, hn, destroyTimerCallback, resultDestroy, initialResult]
  · intro ht
    have hcond : ¬(0 < n ∧ n ≤ t) := by omega
    simp [visitTimerModel, hcond, visitFinally, resultFinalize, resultDestroy,
      initialResult]
  · intro ht
    have hcond : 0 < n ∧ n ≤ t := ⟨hn, ht⟩
    simp [visitTimerModel, hcond, visitFinally, resultFinalize, resultDestroy,
      destroyTimerCallback, initialResult]

/-- C2, witness for the amended theorem at concrete inputs. -/
theorem visitTimer_policy_witness :
    (visitTimerModel 50 (some 10)).settledAt = some 10
    ∧ (visitTimerModel 50 (some 10)).result.error = none
    ∧ (visitTimerModel 50 (some 10)).timerFired = false
    ∧ (visitTimerModel 50 (some 10)).finallyRan = true :=
  ((visitTimer_policy 50 (by decide) 10).2.1 (by decide))

/-- C6, counterexample.  A regular expression whose source is the single
control character U+0001 (and whose source and flags contain no `/`):
serialization produces `regexp:/\u0001/`, but the matching regex's
character class `[^\1]` is the octal escape for U+0001 and so rejects the
pattern text; deserialization therefore returns the raw string instead of
a pattern object, breaking the claimed round trip. -/
theorem deserializeRegExp_ctrl_char_breaks :
    deserializeRegExp (serializeRegExp { source := ['\x01'], flags := [] })
      = .inr (serializeRegExp { source := ['\x01'], flags := [] })
    ∧ '/' ∉ ({ source := ['\x01'], flags := [] } : JsRegExp).source
    ∧ '/' ∉ ({ source := ['\x01'], flags := [] } : JsRegExp).flags := by
  refine ⟨by decide, by decide, by decide⟩

/-- Helper: a string free of U+0001 is accepted by the quantified group. -/
theorem delimTokenRun_of_no_ctrl (d : Char) (p : List Char)
    (h : '\x01' ∉ p) : delimTokenRun d p = true := by
  induction p with
  | nil => rfl
  | cons c cs ih =>
    have hc : ¬(c = '\x01') := fun hx => h (by simp [hx])
    have hcs : '\x01' ∉ cs := fun hx => h (by simp [hx])
    unfold delimTokenRun
    rcases hcons : cs with _ | ⟨c2, cs2⟩ <;>
      simp_all [Bool.or_eq_true, Bool.and_eq_true]

/-- Helper: one step of the greedy scan past a rejecting position. -/
theorem findSplit_miss (d : Char) (rest : List Char) (k : Nat)
    (h : splitOkAt d rest (k + 1) = false) :
    findSplit d rest (k + 1) = findSplit d rest k := by
  conv_lhs => unfold findSplit
  simp [h]

/-- Helper: the greedy scan stops at an accepting position. -/
theorem findSplit_hit (d : Char) (rest : List Char) (k : Nat)
    (h : splitOkAt d rest (k + 1) = true) :
    findSplit d rest (k + 1) = some (rest.take (k + 1), rest.drop (k + 2)) := by
  conv_lhs => unfold findSplit
  simp [h]

/-- Helper: skipping a run of positions where no accepting split exists. -/
theorem findSplit_skip (d : Char) (rest : List Char) (j : Nat) :
    ∀ m, (∀ i, j < i → i ≤ j + m → splitOkAt d rest i = false) →
      findSplit d rest (j + m) = findSplit d rest j := by
  intro m
  induction m with
  | zero => intro _; rfl
  | succ m ih =>
    intro hno
    have hm : splitOkAt d rest (j + m + 1) = false :=
      hno (j + m + 1) (by omega) (by omega)
    have hstep : findSplit d rest (j + m + 1) = findSplit d rest (j + m) :=
      findSplit_miss d rest (j + m) hm
    rw [show j + (m + 1) = j + m + 1 by omega, hstep]
    exact ih (fun i h1 h2 => hno i h1 (by omega))

/-- Helper: past the separating delimiter there is no other delimiter
occurrence when source and flags are delimiter-free. -/
theorem get_high_no_delim (src flags : List Char) (hf : '/' ∉ flags) :
    ∀ i, src.length < i → ((src ++ '/' :: flags).get? i == some '/') = false := by
  intro i hi
  have hge : src.length ≤ i := by omega
  have h1 : (src ++ '/' :: flags).get? i = ('/' :: flags).get? (i - src.length) := by
    exact List.get?_append_right hge
  obtain ⟨m, hm⟩ : ∃ m, i - src.length = m + 1 := ⟨i - src.length - 1, by omega⟩
  rw [h1, hm]
  have h2 : ('/' :: flags).get? (m + 1) = flags.get? m := rfl
  rw [h2]
  cases hg : flags.get? m with
  | none => rfl
  | some c =>
    have hmem : c ∈ flags := List.get?_mem hg
    have : ¬(c = '/') := fun hx => hf (hx ▸ hmem)
    simp [this]

/-- C6, amended.  For every regular expression whose source is non-empty
(a RegExp's `source` never is) and whose source and flags contain neither
the delimiter `/` nor the control character U+0001, serializing to the
`regexp:/pattern/flags` form and deserializing yields a pattern object
with the same source and flags (hence the same `test()` behavior, which is
a function of source and flags).  Sources containing U+0001 break the
round trip (counterexample above) because the matcher's `[^\1]` excludes
that character. -/
theorem deserializeRegExp_serializeRegExp (r : JsRegExp)
    (hne : r.source ≠ [])
    (hs : '/' ∉ r.source) (hf : '/' ∉ r.flags)
    (hcs : '\x01' ∉ r.source) (hcf : '\x01' ∉ r.flags) :
    deserializeRegExp (serializeRegExp r) = .inl r := by
  obtain ⟨src, flags⟩ := r
  simp only at hne hs hf hcs hcf
  have hser : serializeRegExp { source := src, flags := flags }
      = 'r' :: 'e' :: 'g' :: 'e' :: 'x' :: 'p' :: ':' :: '/' :: (src ++ '/' :: flags) := by
    simp [serializeRegExp]
  have hlen : (src ++ '/' :: flags).length = src.length + 1 + flags.length := by
    simp
    omega
  have hLpos : 1 ≤ src.length := by
    cases src with
    | nil => exact absurd rfl hne
    | cons a l => simp
  have htake : (src ++ '/' :: flags).take src.length = src := List.take_left src _
  have hdrop : (src ++ '/' :: flags).drop (src.length + 1) = flags := by
    have h0 : (src ++ '/' :: flags).drop src.length = '/' :: flags :=
      List.drop_left src _
    have h1 : (src ++ '/' :: flags).drop (src.length + 1)
        = ((src ++ '/' :: flags).drop src.length).drop 1 := by
      rw [List.drop_drop]
    rw [h1, h0]
    all_goals rfl
  have hget : (src ++ '/' :: flags).get? src.length = some '/' := by
    rw [List.get?_append_right (Nat.le_refl _)]
    simp
  -- the split at the real separator is accepting
  have hok : splitOkAt '/' (src ++ '/' :: flags) src.length = true := by
    have hrun : delimTokenRun '/' src = true := delimTokenRun_of_no_ctrl '/' src hcs
    have hflags : flags.all (fun c => !(c == '\x01')) = true := by
      rw [List.all_eq_true]
      intro c hc
      have : ¬(c = '\x01') := fun hx => hcf (hx ▸ hc)
      simp [this]
    unfold splitOkAt
    rw [hget, htake, hdrop, hrun, hflags]
    simp [hLpos]
  -- no accepting split exists past the separator
  have hnone : ∀ i, src.length < i → i ≤ src.length + flags.length →
      splitOkAt '/' (src ++ '/' :: flags) i = false := by
    intro i hi _
    have hg := get_high_no_delim src flags hf i hi
    unfold splitOkAt
    rw [hg]
    simp
  -- the greedy scan lands exactly on the separator split
  have hfind : findSplit '/' (src ++ '/' :: flags) (src.length + flags.length)
      = some (src, flags) := by
    rw [findSplit_skip '/' (src ++ '/' :: flags) src.length flags.length hnone]
    obtain ⟨m, hm⟩ : ∃ m, src.length = m + 1 := ⟨src.length - 1, by omega⟩
    rw [hm]
    rw [findSplit_hit '/' (src ++ '/' :: flags) m (by rw [← hm]; exact hok)]
    rw [show m + 2 = (m + 1) + 1 by omega, ← hm]
    rw [htake, hdrop]
  unfold deserializeRegExp
  rw [hser]
  unfold matchesSerializedRegExp
  have hterm : isLineTerminator '/' = false := by decide
  simp only [hterm, Bool.false_eq_true, if_false, ite_false]
  rw [show (src ++ '/' :: flags).length - 1 = src.length + flags.length by omega]
  rw [hfind]

/-- C6, witness for the amended theorem at a concrete input. -/
theorem deserializeRegExp_serializeRegExp_witness :
    deserializeRegExp (serializeRegExp { source := "^local".toList, flags := ['i'] })
      = .inl { source := "^local".toList, flags := ['i'] } :=
  deserializeRegExp_serializeRegExp { source := "^local".toList, flags := ['i'] }
    (by decide) (by decide) (by decide) (by decide) (by decide)

/-! ### Shoebox serialization (src/ember-app.js `createShoebox`,
`escapeJSONString`) and its decoding.

The JSON-serializable values a shoebox entry can hold are modelled by
`Json` (numbers as integers).  `stringify` models `JSON.stringify` on such
values; `escapeJSONString` is the source's escape function; the `parse*`
functions are the decoder (the client-side consumer is not part of this
repository): a standard JSON reader in which string-literal unescaping is,
as in `JSON.parse`, part of parsing. -/

/-- A JSON-serializable value. -/
inductive Json where
  | null
  | bool (b : Bool)
  | num (n : Int)
  | str (s : List Char)
  | arr (xs : List Json)
  | obj (ms : List (List Char × Json))

/-- Decimal digits of `n`, most significant first. -/
def natToChars (n : Nat) : List Char :=
  if h : n < 10 then [Char.ofNat (48 + n)]
  else natToChars (n / 10) ++ [Char.ofNat (48 + n % 10)]
decreasing_by exact Nat.div_lt_self (by omega) (by omega)

/-- `JSON.stringify` of an integer. -/
def intToChars (n : Int) : List Char :=
  if n < 0 then '-' :: natToChars n.natAbs else natToChars n.natAbs

/-- Lowercase hexadecimal digit. -/
def hexDigitChar (d : Nat) : Char :=
  if d < 10 then Char.ofNat (48 + d) else Char.ofNat (87 + d)

/-- Four lowercase hex digits of `n < 0x10000`. -/
def hex4 (n : Nat) : List Char :=
  [hexDigitChar (n / 4096 % 16), hexDigitChar (n / 256 % 16),
   hexDigitChar (n / 16 % 16), hexDigitChar (n % 16)]

/-- `JSON.stringify`'s escaping of one character inside a string literal:
quote, backslash and control characters are escaped (shorthand escapes
where they exist, `\u00xx` otherwise); everything else is literal.  In
particular `<`, `>`, `&`, U+2028 and U+2029 are NOT escaped here. -/
def jsonEscChar (c : Char) : List Char :=
  if c = '"' then ['\\', '"']
  else if c = '\\' then ['\\', '\\']
  else if c = '\x08' then ['\\', 'b']
  else if c = '\x09' then ['\\', 't']
  else if c = '\x0a' then ['\\', 'n']
  else if c = '\x0c' then ['\\', 'f']
  else if c = '\x0d' then ['\\', 'r']
  else if c.toNat < 32 then '\\' :: 'u' :: hex4 c.toNat
  else [c]

/-- `JSON.stringify`'s escaping over a whole string-literal body. -/
def jsonEscString : List Char → List Char
  | [] => []
  | c :: cs => jsonEscChar c ++ jsonEscString cs

/-- A quoted JSON string literal. -/
def jsonQuote (s : List Char) : List Char :=
  '"' :: jsonEscString s ++ ['"']

mutual

/-- `JSON.stringify` over the `Json` model (no whitespace, insertion-order
object keys — exactly what `JSON.stringify(value)` emits). -/
def stringify : Json → List Char
  | .null => "null".toList
  | .bool true => "true".toList
  | .bool false => "false".toList
  | .num n => intToChars n
  | .str s => jsonQuote s
  | .arr xs => '[' :: stringifyItems xs ++ [']']
  | .obj ms => '{' :: stringifyMembers ms ++ ['}']

/-- Comma-separated array elements. -/
def stringifyItems : List Json → List Char
  | [] => []
  | [x] => stringify x
  | x :: xs => stringify x ++ ',' :: stringifyItems xs

/-- Comma-separated `"key":value` members. -/
def stringifyMembers : List (List Char × Json) → List Char
  | [] => []
  | [(k, v)] => jsonQuote k ++ ':' :: stringify v
  | (k, v) :: ms => jsonQuote k ++ ':' :: stringify v ++ ',' :: stringifyMembers ms

end

/-- The shoebox escape map `JSON_ESCAPE` of src/ember-app.js applied to one
character: `&`, `>`, `<`, U+2028 and U+2029 become their six-character
`\uXXXX` spellings; every other character passes through. -/
def escChar (c : Char) : List Char :=
  if c = '&' then ['\\', 'u', '0', '0', '2', '6']
  else if c = '>' then ['\\', 'u', '0', '0', '3', 'e']
  else if c = '<' then ['\\', 'u', '0', '0', '3', 'c']
  else if c = '\u2028' then ['\\', 'u', '2', '0', '2', '8']
  else if c = '\u2029' then ['\\', 'u', '2', '0', '2', '9']
  else [c]

/-- `escapeJSONString` from src/ember-app.js: the global single-character
regex replace of each occurrence of `&`, `>`, `<`, U+2028 or U+2029 by its `JSON_ESCAPE` entry. -/
def escapeJSONString : List Char → List Char
  | [] => []
  | c :: cs => escChar c ++ escapeJSONString cs

/-- The escaped serialized text embedded for one shoebox value. -/
def shoeboxText (v : Json) : List Char :=
  escapeJSONString (stringify v)

/-- One inert `<script type="ssr/shoebox">` block produced by
`createShoebox`. -/
structure ShoeboxScript where
  scriptType : List Char
  elementId : List Char
  text : List Char
  deriving DecidableEq, Repr

/-- `createShoebox(doc, fastbootInfo)`: one script block per shoebox key,
each holding the escaped `JSON.stringify` of its value. -/
def createShoebox (entries : List (List Char × Json)) : List ShoeboxScript :=
  entries.map (fun kv =>
    { scriptType := "ssr/shoebox".toList
      elementId := "shoebox-".toList ++ kv.1
      text := shoeboxText kv.2 })

/-- A character the shoebox escape must eliminate: `<`, `>`, `&`, U+2028,
U+2029. -/
def shoeboxUnsafe (c : Char) : Bool :=
  c = '&' || c = '>' || c = '<' || c = '\u2028' || c = '\u2029'

/-! ### The JSON reader -/

/-- Value of one hex digit character. -/
def parseHexDigit (c : Char) : Option Nat :=
  if '0' ≤ c ∧ c ≤ '9' then some (c.toNat - 48)
  else if 'a' ≤ c ∧ c ≤ 'f' then some (c.toNat - 87)
  else if 'A' ≤ c ∧ c ≤ 'F' then some (c.toNat - 55)
  else none

/-- Read a string-literal body up to and including the closing quote,
interpreting the JSON escapes (this is the un-escaping step of
`JSON.parse`).  Returns the decoded characters and the remaining input. -/
def parseStringBody : List Char → Option (List Char × List Char)
  | [] => none
  | c :: rest =>
    if c = '"' then some ([], rest)
    else if c = '\\' then
      match rest with
      | [] => none
      | e :: rest2 =>
        if e = '"' then (parseStringBody rest2).map (fun p => ('"' :: p.1, p.2))
        else if e = '\\' then (parseStringBody rest2).map (fun p => ('\\' :: p.1, p.2))
        else if e = '/' then (parseStringBody rest2).map (fun p => ('/' :: p.1, p.2))
        else if e = 'b' then (parseStringBody rest2).map (fun p => ('\x08' :: p.1, p.2))
        else if e = 'f' then (parseStringBody rest2).map (fun p => ('\x0c' :: p.1, p.2))
        else if e = 'n' then (parseStringBody rest2).map (fun p => ('\x0a' :: p.1, p.2))
        else if e = 'r' then (parseStringBody rest2).map (fun p => ('\x0d' :: p.1, p.2))
        else if e = 't' then (parseStringBody rest2).map (fun p => ('\x09' :: p.1, p.2))
        else if e = 'u' then
          match rest2 with
          | a :: b :: c2 :: d :: rest3 =>
            match parseHexDigit a, parseHexDigit b, parseHexDigit c2, parseHexDigit d with
            | some ha, some hb, some hc, some hd =>
              let n := ha * 4096 + hb * 256 + hc * 16 + hd
              if n.isValidChar then
                (parseStringBody rest3).map (fun p => (Char.ofNat n :: p.1, p.2))
              else none
            | _, _, _, _ => none
          | _ => none
        else none
    else if c.toNat < 32 then none
    else (parseStringBody rest).map (fun p => (c :: p.1, p.2))

/-- Longest digit prefix and the rest. -/
def takeDigits : List Char → List Char × List Char
  | [] => ([], [])
  | c :: cs =>
    if c.isDigit then
      let p := takeDigits cs
      (c :: p.1, p.2)
    else ([], c :: cs)

/-- Value of a digit string (most significant first). -/
def digitsToNat (ds : List Char) : Nat :=
  ds.foldl (fun a c => a * 10 + (c.toNat - 48)) 0

mutual

/-- Read one JSON value.  `fuel` strictly decreases on every recursive
call; `jsize` below bounds the fuel any serialized value needs. -/
def parseJson : Nat → List Char → Option (Json × List Char)
  | 0, _ => none
  | fuel + 1, l =>
    match l with
    | [] => none
    | c :: rest =>
      if c = 'n' then
        match rest with
        | 'u' :: 'l' :: 'l' :: r => some (.null, r)
        | _ => none
      else if c = 't' then
        match rest with
        | 'r' :: 'u' :: 'e' :: r => some (.bool true, r)
        | _ => none
      else if c = 'f' then
        match rest with
        | 'a' :: 'l' :: 's' :: 'e' :: r => some (.bool false, r)
        | _ => none
      else if c = '"' then
        (parseStringBody rest).map (fun p => (.str p.1, p.2))
      else if c = '[' then
        match rest with
        | ']' :: r => some (.arr [], r)
        | _ => (parseItems fuel rest).map (fun p => (.arr p.1, p.2))
      else if c = '{' then
        match rest with
        | '}' :: r => some (.obj [], r)
        | _ => (parseMembers fuel rest).map (fun p => (.obj p.1, p.2))
      else if c = '-' then
        let p := takeDigits rest
        if p.1.isEmpty then none
        else some (.num (-(digitsToNat p.1 : Int)), p.2)
      else if c.isDigit then
        let p := takeDigits (c :: rest)
        some (.num ((digitsToNat p.1 : Int)), p.2)
      else none

/-- Read one or more comma-separated values and the closing `]`. -/
def parseItems : Nat → List Char → Option (List Json × List Char)
  | 0, _ => none
  | fuel + 1, l =>
    match parseJson fuel l with
    | none => none
    | some (v, r) =>
      match r with
      | ',' :: r2 =>
        match parseItems fuel r2 with
        | none => none
        | some (vs, r3) => some (v :: vs, r3)
      | ']' :: r2 => some ([v], r2)
      | _ => none

/-- Read one or more comma-separated `"key":value` members and the closing
`}`. -/
def parseMembers : Nat → List Char → Option (List (List Char × Json) × List Char)
  | 0, _ => none
  | fuel + 1, l =>
    match l with
    | '"' :: r =>
      match parseStringBody r with
      | none => none
      | some (k, r1) =>
        match r1 with
        | ':' :: r2 =>
          match parseJson fuel r2 with
          | none => none
          | some (v, r3) =>
            match r3 with
            | ',' :: r4 =>
              match parseMembers fuel r4 with
              | none => none
              | some (ms, r5) => some ((k, v) :: ms, r5)
            | '}' :: r4 => some ([(k, v)], r4)
            | _ => none
        | _ => none
    | _ => none

end

mutual

/-- Fuel bound for `parseJson` on a serialized value. -/
def jsize : Json → Nat
  | .null => 1
  | .bool _ => 1
  | .num _ => 1
  | .str _ => 1
  | .arr xs => 1 + jsizeItems xs
  | .obj ms => 1 + jsizeMembers ms

/-- Fuel bound for `parseItems`. -/
def jsizeItems : List Json → Nat
  | [] => 1
  | x :: xs => 1 + jsize x + jsizeItems xs

/-- Fuel bound for `parseMembers`. -/
def jsizeMembers : List (List Char × Json) → Nat
  | [] => 1
  | (_, v) :: ms => 1 + jsize v + jsizeMembers ms

end

/-- Helper: the shoebox escape is a per-character homomorphism. -/
theorem escapeJSONString_append (a b : List Char) :
    escapeJSONString (a ++ b) = escapeJSONString a ++ escapeJSONString b := by
  induction a with
  | nil => rfl
  | cons c cs ih => simp [escapeJSONString, ih]

/-- Helper: every character the escape map emits is safe. -/
theorem escChar_safe_chars (c : Char) :
    ∀ c2 ∈ escChar c, shoeboxUnsafe c2 = false := by
  intro c2 h
  unfold escChar at h
  split_ifs at h with h1 h2 h3 h4 h5
  · simp only [List.mem_cons, List.not_mem_nil, or_false] at h
    rcases h with rfl | rfl | rfl | rfl | rfl | rfl <;> decide
  · simp only [List.mem_cons, List.not_mem_nil, or_false] at h
    rcases h with rfl | rfl | rfl | rfl | rfl | rfl <;> decide
  · simp only [List.mem_cons, List.not_mem_nil, or_false] at h
    rcases h with rfl | rfl | rfl | rfl | rfl | rfl <;> decide
  · simp only [List.mem_cons, List.not_mem_nil, or_false] at h
    rcases h with rfl | rfl | rfl | rfl | rfl | rfl <;> decide
  · simp only [List.mem_cons, List.not_mem_nil, or_false] at h
    rcases h with rfl | rfl | rfl | rfl | rfl | rfl <;> decide
  · simp only [List.mem_cons, List.not_mem_nil, or_false] at h
    subst h
    simp [shoeboxUnsafe, h1, h2, h3, h4, h5]

/-- C5, part one as a standalone fact: the escaped text contains no
occurrence of `<`, `>`, `&`, U+2028 or U+2029. -/
theorem escapeJSONString_safe (l : List Char) :
    ∀ c ∈ escapeJSONString l, shoeboxUnsafe c = false := by
  induction l with
  | nil => intro c h; cases h
  | cons x xs ih =>
    intro c h
    rcases List.mem_append.mp h with h2 | h2
    · exact escChar_safe_chars x c h2
    · exact ih c h2

/-- Helper: safe characters pass through the escape unchanged. -/
theorem escChar_of_safe (c : Char) (h : shoeboxUnsafe c = false) :
    escChar c = [c] := by
  unfold shoeboxUnsafe at h
  simp only [Bool.or_eq_false_iff, decide_eq_false_iff_not] at h
  obtain ⟨⟨⟨⟨h1, h2⟩, h3⟩, h4⟩, h5⟩ := h
  simp [escChar, h1, h2, h3, h4, h5]

/-- Helper: a list of safe characters passes through unchanged. -/
theorem escapeJSONString_of_safe (l : List Char)
    (h : ∀ c ∈ l, shoeboxUnsafe c = false) : escapeJSONString l = l := by
  induction l with
  | nil => rfl
  | cons c cs ih =>
    simp [escapeJSONString, escChar_of_safe c (h c (by simp)),
      ih (fun c2 hc2 => h c2 (by simp [hc2]))]

/-- Helper: round trip of one lowercase hex digit. -/
theorem parseHexDigit_hexDigitChar (d : Nat) (h : d < 16) :
    parseHexDigit (hexDigitChar d) = some d := by
  interval_cases d <;> decide

/-- Helper: hex digit characters are shoebox-safe. -/
theorem hexDigitChar_safe (d : Nat) (h : d < 16) :
    shoeboxUnsafe (hexDigitChar d) = false := by
  interval_cases d <;> decide

/-- Helper: decoding one encoded character.  The encoding of a character is
`JSON.stringify`'s escaping followed by the shoebox escape; the reader
consumes it and produces exactly that character, whatever follows. -/
theorem parseStringBody_charEnc (c : Char) (t : List Char) :
    parseStringBody (escapeJSONString (jsonEscChar c) ++ t)
      = (parseStringBody t).map (fun p => (c :: p.1, p.2)) := by
  by_cases h1 : c = '"'
  · subst h1
    show parseStringBody ('\\' :: '"' :: t) = _
    rw [parseStringBody.eq_def]
    simp
  by_cases h2 : c = '\\'
  · subst h2
    show parseStringBody ('\\' :: '\\' :: t) = _
    rw [parseStringBody.eq_def]
    simp
  by_cases h3 : c = '\x08'
  · subst h3
    show parseStringBody ('\\' :: 'b' :: t) = _
    rw [parseStringBody.eq_def]
    simp
  by_cases h4 : c = '\x09'
  · subst h4
    show parseStringBody ('\\' :: 't' :: t) = _
    rw [parseStringBody.eq_def]
    simp
  by_cases h5 : c = '\x0a'
  · subst h5
    show parseStringBody ('\\' :: 'n' :: t) = _
    rw [parseStringBody.eq_def]
    simp
  by_cases h6 : c = '\x0c'
  · subst h6
    show parseStringBody ('\\' :: 'f' :: t) = _
    rw [parseStringBody.eq_def]
    simp
  by_cases h7 : c = '\x0d'
  · subst h7
    show parseStringBody ('\\' :: 'r' :: t) = _
    rw [parseStringBody.eq_def]
    simp
  by_cases hu1 : c = '&'
  · subst hu1; rfl
  by_cases hu2 : c = '>'
  · subst hu2; rfl
  by_cases hu3 : c = '<'
  · subst hu3; rfl
  by_cases hu4 : c = '\u2028'
  · subst hu4; rfl
  by_cases hu5 : c = '\u2029'
  · subst hu5; rfl
  by_cases hlt : c.toNat < 32
  · obtain ⟨n, hn, hc⟩ : ∃ n, n < 32 ∧ c = Char.ofNat n :=
      ⟨c.toNat, hlt, (Char.ofNat_toNat c).symm⟩
    subst hc
    interval_cases n <;>
      first
        | rfl
        | exact absurd rfl h3
        | exact absurd rfl h4
        | exact absurd rfl h5
        | exact absurd rfl h6
        | exact absurd rfl h7
  · have hsafe : shoeboxUnsafe c = false := by
      simp [shoeboxUnsafe, hu1, hu2, hu3, hu4, hu5]
    have hjson : jsonEscChar c = [c] := by
      simp [jsonEscChar, h1, h2, h3, h4, h5, h6, h7, hlt]
    have hesc : escapeJSONString (jsonEscChar c) = [c] := by
      rw [hjson]
      exact escapeJSONString_of_safe [c] (by intro x hx; simp at hx; subst hx; exact hsafe)
    rw [hesc]
    rw [show ([c] ++ t : List Char) = c :: t from rfl]
    rw [parseStringBody.eq_def]
    simp [h1, h2, hlt]

/-- Helper: decoding a whole encoded string-literal body. -/
theorem parseStringBody_escaped (s : List Char) (rest : List Char) :
    parseStringBody (escapeJSONString (jsonEscString s) ++ '"' :: rest)
      = some (s, rest) := by
  induction s with
  | nil =>
    show parseStringBody ('"' :: rest) = some ([], rest)
    rw [parseStringBody.eq_def]
    simp
  | cons c cs ih =>
    have hsplit : escapeJSONString (jsonEscString (c :: cs))
        = escapeJSONString (jsonEscChar c) ++ escapeJSONString (jsonEscString cs) := by
      show escapeJSONString (jsonEscChar c ++ jsonEscString cs) = _
      exact escapeJSONString_append _ _
    rw [hsplit, List.append_assoc, parseStringBody_charEnc, ih]
    rfl

/-- Helper: digit characters emitted by `natToChars`. -/
theorem digitChar_toNat (d : Nat) (h : d < 10) :
    (Char.ofNat (48 + d)).toNat = 48 + d ∧ (Char.ofNat (48 + d)).isDigit = true := by
  interval_cases d <;> exact ⟨by decide, by decide⟩

/-- Helper: every character of `natToChars n` is a digit. -/
theorem natToChars_digits (n : Nat) : ∀ c ∈ natToChars n, c.isDigit = true := by
  induction n using Nat.strong_induction_on with
  | _ n ih =>
    intro c hc
    by_cases h : n < 10
    · rw [natToChars, dif_pos h] at hc
      simp only [List.mem_cons, List.not_mem_nil, or_false] at hc
      subst hc
      exact (digitChar_toNat n h).2
    · rw [natToChars, dif_neg h] at hc
      rcases List.mem_append.mp hc with h2 | h2
      · exact ih (n / 10) (Nat.div_lt_self (by omega) (by omega)) c h2
      · simp only [List.mem_cons, List.not_mem_nil, or_false] at h2
        subst h2
        exact (digitChar_toNat (n % 10) (Nat.mod_lt n (by omega))).2

/-- Helper: `natToChars` never yields the empty list. -/
theorem natToChars_ne_nil (n : Nat) : natToChars n ≠ [] := by
  by_cases h : n < 10
  · rw [natToChars, dif_pos h]
    simp
  · rw [natToChars, dif_neg h]
    simp

/-- Helper: reading back the decimal digits. -/
theorem digitsToNat_natToChars (n : Nat) : digitsToNat (natToChars n) = n := by
  induction n using Nat.strong_induction_on with
  | _ n ih =>
    by_cases h : n < 10
    · rw [natToChars, dif_pos h]
      unfold digitsToNat
      simp [(digitChar_toNat n h).1]
    · rw [natToChars, dif_neg h]
      unfold digitsToNat
      rw [List.foldl_append]
      have hrec := ih (n / 10) (Nat.div_lt_self (by omega) (by omega))
      unfold digitsToNat at hrec
      rw [hrec]
      simp only [List.foldl_cons, List.foldl_nil]
      rw [(digitChar_toNat (n % 10) (Nat.mod_lt n (by omega))).1]
      omega

/-- Helper: `takeDigits` splits a digit run followed by a non-digit. -/
theorem takeDigits_append (l r : List Char)
    (hl : ∀ c ∈ l, c.isDigit = true)
    (hr : ∀ c t, r = c :: t → c.isDigit = false) :
    takeDigits (l ++ r) = (l, r) := by
  induction l with
  | nil =>
    cases r with
    | nil => rfl
    | cons c t =>
      show takeDigits (c :: t) = ([], c :: t)
      rw [takeDigits.eq_def]
      simp [hr c t rfl]
  | cons d l ih =>
    have hd : d.isDigit = true := hl d (by simp)
    show takeDigits (d :: (l ++ r)) = (d :: l, r)
    rw [takeDigits.eq_def]
    simp only [hd, if_true, ite_true]
    rw [ih (fun c hc => hl c (by simp [hc]))]

/-- Helper: digits are shoebox-safe, so `escapeJSONString` keeps numerals. -/
theorem escapeJSONString_digits (l : List Char)
    (h : ∀ c ∈ l, c.isDigit = true) : escapeJSONString l = l := by
  apply escapeJSONString_of_safe
  intro c hc
  have hd := h c hc
  have hb : 48 ≤ c.toNat ∧ c.toNat ≤ 57 := by
    unfold Char.isDigit at hd
    simp only [Bool.and_eq_true, decide_eq_true_eq] at hd
    exact ⟨hd.1, hd.2⟩
  unfold shoeboxUnsafe
  have h1 : ¬(c = '&') := fun hx => by subst hx; exact absurd hb (by decide)
  have h2 : ¬(c = '>') := fun hx => by subst hx; exact absurd hb (by decide)
  have h3 : ¬(c = '<') := fun hx => by subst hx; exact absurd hb (by decide)
  have h4 : ¬(c = ' ') := fun hx => by subst hx; exact absurd hb (by decide)
  have h5 : ¬(c = ' ') := fun hx => by subst hx; exact absurd hb (by decide)
  simp [h1, h2, h3, h4, h5]

/-- Helper: the escape keeps a safe head character. -/
theorem escapeJSONString_cons_safe (c : Char) (l : List Char)
    (h : shoeboxUnsafe c = false) :
    escapeJSONString (c :: l) = c :: escapeJSONString l := by
  show escChar c ++ escapeJSONString l = _
  rw [escChar_of_safe c h]
  rfl

/-- Helper: every serialized value begins with a character that is neither
`]` nor `}` (needed for the reader's bracket dispatch). -/
theorem shoeboxText_head (v : Json) :
    ∃ c t, escapeJSONString (stringify v) = c :: t ∧ ¬(c = ']') ∧ ¬(c = '}') := by
  cases v with
  | null => exact ⟨'n', ['u', 'l', 'l'], rfl, by decide, by decide⟩
  | bool b =>
    cases b with
    | true => exact ⟨'t', ['r', 'u', 'e'], rfl, by decide, by decide⟩
    | false => exact ⟨'f', ['a', 'l', 's', 'e'], rfl, by decide, by decide⟩
  | num n =>
    rw [show stringify (.num n) = intToChars n from rfl]
    unfold intToChars
    by_cases hneg : n < 0
    · rw [if_pos hneg]
      refine ⟨'-', escapeJSONString (natToChars n.natAbs), ?_, by decide, by decide⟩
      rw [escapeJSONString_cons_safe '-' _ (by decide)]
    · rw [if_neg hneg]
      have hd := natToChars_digits n.natAbs
      rw [escapeJSONString_digits _ hd]
      obtain ⟨c, t, hct⟩ : ∃ c t, natToChars n.natAbs = c :: t := by
        cases h : natToChars n.natAbs with
        | nil => exact absurd h (natToChars_ne_nil _)
        | cons a b => exact ⟨a, b, rfl⟩
      refine ⟨c, t, hct, ?_, ?_⟩
      · intro hx
        subst hx
        have := hd ']' (by rw [hct]; simp)
        exact absurd this (by decide)
      · intro hx
        subst hx
        have := hd '}' (by rw [hct]; simp)
        exact absurd this (by decide)
  | str s =>
    refine ⟨'"', escapeJSONString (jsonEscString s ++ ['"']), ?_, by decide, by decide⟩
    rw [show stringify (Json.str s) = '"' :: (jsonEscString s ++ ['"']) from rfl,
      escapeJSONString_cons_safe _ _ (by decide)]
  | arr xs =>
    refine ⟨'[', escapeJSONString (stringifyItems xs ++ [']']), ?_, by decide, by decide⟩
    rw [show stringify (Json.arr xs) = '[' :: (stringifyItems xs ++ [']']) from rfl,
      escapeJSONString_cons_safe _ _ (by decide)]
  | obj ms =>
    refine ⟨'{', escapeJSONString (stringifyMembers ms ++ ['}']), ?_, by decide, by decide⟩
    rw [show stringify (Json.obj ms) = '{' :: (stringifyMembers ms ++ ['}']) from rfl,
      escapeJSONString_cons_safe _ _ (by decide)]

/-- Helper: every value needs at least one unit of fuel. -/
theorem jsize_pos (v : Json) : 1 ≤ jsize v := by
  cases v <;> simp [jsize]

/-- Helper: item lists need at least one unit of fuel. -/
theorem jsizeItems_pos (xs : List Json) : 1 ≤ jsizeItems xs := by
  cases xs <;> simp [jsizeItems] <;> omega

/-- Helper: member lists need at least one unit of fuel. -/
theorem jsizeMembers_pos (ms : List (List Char × Json)) : 1 ≤ jsizeMembers ms := by
  cases ms with
  | nil => simp [jsizeMembers]
  | cons m rest =>
    obtain ⟨k, v⟩ := m
    simp [jsizeMembers]
    omega

/-- Helper: reading the `null` keyword. -/
theorem parseJson_null_step (f : Nat) (r : List Char) :
    parseJson (f + 1) ('n' :: 'u' :: 'l' :: 'l' :: r) = some (.null, r) := by
  simp [parseJson]

/-- Helper: reading the `true` keyword. -/
theorem parseJson_true_step (f : Nat) (r : List Char) :
    parseJson (f + 1) ('t' :: 'r' :: 'u' :: 'e' :: r) = some (.bool true, r) := by
  simp [parseJson]

/-- Helper: reading the `false` keyword. -/
theorem parseJson_false_step (f : Nat) (r : List Char) :
    parseJson (f + 1) ('f' :: 'a' :: 'l' :: 's' :: 'e' :: r) = some (.bool false, r) := by
  simp [parseJson]

/-- Helper: dispatching on an opening quote. -/
theorem parseJson_quote_step (f : Nat) (r : List Char) :
    parseJson (f + 1) ('"' :: r)
      = (parseStringBody r).map (fun p => (Json.str p.1, p.2)) := by
  simp [parseJson]

/-- Helper: reading an empty array. -/
theorem parseJson_arr_empty_step (f : Nat) (r : List Char) :
    parseJson (f + 1) ('[' :: ']' :: r) = some (.arr [], r) := by
  simp [parseJson]

/-- Helper: reading an empty object. -/
theorem parseJson_obj_empty_step (f : Nat) (r : List Char) :
    parseJson (f + 1) ('{' :: '}' :: r) = some (.obj [], r) := by
  simp [parseJson]

/-- Helper: dispatching a non-empty array body to the item reader. -/
theorem parseJson_arr_step (f : Nat) (c0 : Char) (t0 : List Char) (hc0 : ¬(c0 = ']')) :
    parseJson (f + 1) ('[' :: c0 :: t0)
      = (parseItems f (c0 :: t0)).map (fun p => (Json.arr p.1, p.2)) := by
  simp only [parseJson]
  simp only [Char.reduceEq, if_false, ite_false, if_true, ite_true, reduceIte]
  split
  · rename_i heq
    rw [List.cons.injEq] at heq
    exact absurd heq.1 hc0
  · rfl

/-- Helper: dispatching a non-empty object body to the member reader. -/
theorem parseJson_obj_step (f : Nat) (c0 : Char) (t0 : List Char) (hc0 : ¬(c0 = '}')) :
    parseJson (f + 1) ('{' :: c0 :: t0)
      = (parseMembers f (c0 :: t0)).map (fun p => (Json.obj p.1, p.2)) := by
  simp only [parseJson]
  simp only [Char.reduceEq, if_false, ite_false, if_true, ite_true, reduceIte]
  split
  · rename_i heq
    rw [List.cons.injEq] at heq
    exact absurd heq.1 hc0
  · rfl

/-- Helper: reading a negative number. -/
theorem parseJson_neg_step (f : Nat) (r : List Char) :
    parseJson (f + 1) ('-' :: r)
      = (if (takeDigits r).1.isEmpty then none
         else some (.num (-(digitsToNat (takeDigits r).1 : Int)), (takeDigits r).2)) := by
  simp [parseJson]

/-- Helper: reading a number that begins with a digit. -/
theorem parseJson_digit_step (f : Nat) (c : Char) (r : List Char) (hc : c.isDigit = true) :
    parseJson (f + 1) (c :: r)
      = some (.num ((digitsToNat (takeDigits (c :: r)).1 : Int)), (takeDigits (c :: r)).2) := by
  have hb : 48 ≤ c.toNat ∧ c.toNat ≤ 57 := by
    unfold Char.isDigit at hc
    simp only [Bool.and_eq_true, decide_eq_true_eq] at hc
    exact ⟨hc.1, hc.2⟩
  have k1 : ¬(c = 'n') := fun hx => by subst hx; exact absurd hb (by decide)
  have k2 : ¬(c = 't') := fun hx => by subst hx; exact absurd hb (by decide)
  have k3 : ¬(c = 'f') := fun hx => by subst hx; exact absurd hb (by decide)
  have k4 : ¬(c = '"') := fun hx => by subst hx; exact absurd hb (by decide)
  have k5 : ¬(c = '[') := fun hx => by subst hx; exact absurd hb (by decide)
  have k6 : ¬(c = '{') := fun hx => by subst hx; exact absurd hb (by decide)
  have k7 : ¬(c = '-') := fun hx => by subst hx; exact absurd hb (by decide)
  simp [parseJson, k1, k2, k3, k4, k5, k6, k7, hc]

/-- Helper: the item reader on a final element. -/
theorem parseItems_close_step (f : Nat) (l : List Char) (x : Json) (r2 : List Char)
    (h : parseJson f l = some (x, ']' :: r2)) :
    parseItems (f + 1) l = some ([x], r2) := by
  simp [parseItems, h]

/-- Helper: the item reader on a non-final element. -/
theorem parseItems_comma_step (f : Nat) (l : List Char) (x : Json)
    (r2 r3 : List Char) (vs : List Json)
    (h : parseJson f l = some (x, ',' :: r2))
    (h2 : parseItems f r2 = some (vs, r3)) :
    parseItems (f + 1) l = some (x :: vs, r3) := by
  simp [parseItems, h, h2]

/-- Helper: the member reader on a final member. -/
theorem parseMembers_close_step (f : Nat) (r : List Char) (k : List Char)
    (r1 : List Char) (v : Json) (r3 : List Char)
    (hk : parseStringBody r = some (k, ':' :: r1))
    (hv : parseJson f r1 = some (v, '}' :: r3)) :
    parseMembers (f + 1) ('"' :: r) = some ([(k, v)], r3) := by
  simp [parseMembers, hk, hv]

/-- Helper: the member reader on a non-final member. -/
theorem parseMembers_comma_step (f : Nat) (r : List Char) (k : List Char)
    (r1 : List Char) (v : Json) (r3 r4 : List Char) (ms : List (List Char × Json))
    (hk : parseStringBody r = some (k, ':' :: r1))
    (hv : parseJson f r1 = some (v, ',' :: r3))
    (hm : parseMembers f r3 = some (ms, r4)) :
    parseMembers (f + 1) ('"' :: r) = some ((k, v) :: ms, r4) := by
  simp [parseMembers, hk, hv, hm]

/-- The continuations a serialized value can be followed by: end of input or
a structural delimiter. -/
def delimOk (r : List Char) : Prop :=
  match r with
  | [] => True
  | c :: _ => c = ',' ∨ c = ']' ∨ c = '}'

/-- Helper: a structural delimiter is not a digit. -/
theorem delimOk_not_digit (r : List Char) (h : delimOk r) :
    ∀ c t, r = c :: t → c.isDigit = false := by
  intro c t hr
  subst hr
  unfold delimOk at h
  rcases h with rfl | rfl | rfl <;> decide

/-- Helper: the escape of a quoted string literal. -/
theorem escQuote (s : List Char) :
    escapeJSONString (jsonQuote s)
      = '"' :: (escapeJSONString (jsonEscString s) ++ ['"']) := by
  rw [show jsonQuote s = '"' :: (jsonEscString s ++ ['"']) from rfl]
  rw [escapeJSONString_cons_safe _ _ (by decide), escapeJSONString_append]
  rfl

/-- Helper: the head of a serialized item list. -/
theorem escItems_head (x : Json) (xs : List Json) :
    ∃ c0 t0, escapeJSONString (stringifyItems (x :: xs)) = c0 :: t0
      ∧ ¬(c0 = ']') ∧ ¬(c0 = '}') := by
  obtain ⟨c, t, hct, h1, h2⟩ := shoeboxText_head x
  cases xs with
  | nil =>
    exact ⟨c, t, by rw [show stringifyItems [x] = stringify x from rfl, hct], h1, h2⟩
  | cons y ys =>
    refine ⟨c, t ++ escapeJSONString (',' :: stringifyItems (y :: ys)), ?_, h1, h2⟩
    rw [show stringifyItems (x :: y :: ys)
        = stringify x ++ ',' :: stringifyItems (y :: ys) from rfl]
    rw [escapeJSONString_append, hct]
    rfl

/-- Helper: a serialized member list begins with a quote. -/
theorem escMembers_head (k : List Char) (v : Json) (ms : List (List Char × Json)) :
    ∃ t0, escapeJSONString (stringifyMembers ((k, v) :: ms)) = '"' :: t0 := by
  have hform : ∃ tail, stringifyMembers ((k, v) :: ms) = jsonQuote k ++ tail := by
    cases ms with
    | nil => exact ⟨':' :: stringify v, rfl⟩
    | cons m2 ms3 =>
        obtain ⟨k2, v2⟩ := m2
        exact ⟨(':' :: stringify v) ++ (',' :: stringifyMembers ((k2, v2) :: ms3)),
          by simp [stringifyMembers]⟩
  obtain ⟨tail, htail⟩ := hform
  refine ⟨(escapeJSONString (jsonEscString k) ++ ['"']) ++ escapeJSONString tail, ?_⟩
  rw [htail, escapeJSONString_append, escQuote]
  rfl


/-- Helper: the full round trip, by strong induction on the reader's fuel
(every recursive call of the reader consumes one unit). -/
theorem parse_roundtrip_aux : ∀ fuel : Nat,
    (∀ v rest, jsize v ≤ fuel → delimOk rest →
      parseJson fuel (escapeJSONString (stringify v) ++ rest) = some (v, rest))
    ∧ (∀ xs rest, xs ≠ [] → jsizeItems xs ≤ fuel →
      parseItems fuel (escapeJSONString (stringifyItems xs) ++ ']' :: rest)
        = some (xs, rest))
    ∧ (∀ ms rest, ms ≠ [] → jsizeMembers ms ≤ fuel →
      parseMembers fuel (escapeJSONString (stringifyMembers ms) ++ '}' :: rest)
        = some (ms, rest)) := by
  intro fuel
  induction fuel using Nat.strong_induction_on with
  | _ fuel ih =>
    refine ⟨?_, ?_, ?_⟩
    · intro v rest hsize hdelim
      obtain ⟨f, rfl⟩ : ∃ f, fuel = f + 1 :=
        ⟨fuel - 1, by have := jsize_pos v; omega⟩
      obtain ⟨ihJ, ihI, ihM⟩ := ih f (by omega)
      cases v with
      | null => exact parseJson_null_step f rest
      | bool b =>
        cases b with
        | true => exact parseJson_true_step f rest
        | false => exact parseJson_false_step f rest
      | num n =>
        rw [show stringify (Json.num n) = intToChars n from rfl]
        unfold intToChars
        by_cases hneg : n < 0
        · rw [if_pos hneg, escapeJSONString_cons_safe '-' _ (by decide),
            escapeJSONString_digits _ (natToChars_digits _), List.cons_append,
            parseJson_neg_step,
            takeDigits_append _ _ (natToChars_digits _) (delimOk_not_digit rest hdelim)]
          have hne := natToChars_ne_nil n.natAbs
          have habs : (-(digitsToNat (natToChars n.natAbs) : Int)) = n := by
            rw [digitsToNat_natToChars]
            omega
          simp [List.isEmpty_iff, hne, habs]
        · rw [if_neg hneg, escapeJSONString_digits _ (natToChars_digits _)]
          obtain ⟨c, t, hct⟩ : ∃ c t, natToChars n.natAbs = c :: t := by
            cases h : natToChars n.natAbs with
            | nil => exact absurd h (natToChars_ne_nil _)
            | cons a b => exact ⟨a, b, rfl⟩
          have hcd : c.isDigit = true := natToChars_digits _ c (by rw [hct]; simp)
          rw [hct, List.cons_append, parseJson_digit_step f c (t ++ rest) hcd,
            show (c :: (t ++ rest) : List Char) = (c :: t) ++ rest from rfl, ← hct,
            takeDigits_append _ _ (natToChars_digits _) (delimOk_not_digit rest hdelim)]
          have habs : ((digitsToNat (natToChars n.natAbs) : Int)) = n := by
            rw [digitsToNat_natToChars]
            omega
          simp [habs]
      | str s =>
        rw [show stringify (Json.str s) = '"' :: (jsonEscString s ++ ['"']) from rfl,
          escapeJSONString_cons_safe _ _ (by decide), escapeJSONString_append,
          show escapeJSONString ['"'] = ['"'] from rfl, List.cons_append,
          List.append_assoc,
          show (['"'] ++ rest : List Char) = '"' :: rest from rfl,
          parseJson_quote_step, parseStringBody_escaped]
        rfl
      | arr xs =>
        cases xs with
        | nil => exact parseJson_arr_empty_step f rest
        | cons x xs2 =>
          rw [show stringify (Json.arr (x :: xs2))
              = '[' :: (stringifyItems (x :: xs2) ++ [']']) from rfl,
            escapeJSONString_cons_safe _ _ (by decide), escapeJSONString_append,
            show escapeJSONString [']'] = [']'] from rfl, List.cons_append,
            List.append_assoc,
            show (([']'] ++ rest : List Char)) = ']' :: rest from rfl]
          obtain ⟨c0, t0, hct, hc0, _⟩ := escItems_head x xs2
          rw [hct, List.cons_append, parseJson_arr_step f c0 _ hc0,
            show (c0 :: (t0 ++ ']' :: rest) : List Char)
              = (c0 :: t0) ++ ']' :: rest from rfl, ← hct]
          have hsz : jsizeItems (x :: xs2) ≤ f := by
            have : jsize (Json.arr (x :: xs2)) = 1 + jsizeItems (x :: xs2) := rfl
            omega
          rw [ihI (x :: xs2) rest (by simp) hsz]
          rfl
      | obj ms =>
        cases ms with
        | nil => exact parseJson_obj_empty_step f rest
        | cons m ms2 =>
          obtain ⟨k, v⟩ := m
          rw [show stringify (Json.obj ((k, v) :: ms2))
              = '{' :: (stringifyMembers ((k, v) :: ms2) ++ ['}']) from rfl,
            escapeJSONString_cons_safe _ _ (by decide), escapeJSONString_append,
            show escapeJSONString ['}'] = ['}'] from rfl, List.cons_append,
            List.append_assoc,
            show ((['}'] ++ rest : List Char)) = '}' :: rest from rfl]
          obtain ⟨t0, hct⟩ := escMembers_head k v ms2
          rw [hct, List.cons_append, parseJson_obj_step f '"' _ (by decide),
            show ('"' :: (t0 ++ '}' :: rest) : List Char)
              = ('"' :: t0) ++ '}' :: rest from rfl, ← hct]
          have hsz : jsizeMembers ((k, v) :: ms2) ≤ f := by
            have : jsize (Json.obj ((k, v) :: ms2)) = 1 + jsizeMembers ((k, v) :: ms2) := rfl
            omega
          rw [ihM ((k, v) :: ms2) rest (by simp) hsz]
          rfl
    · intro xs rest hne hsize
      obtain ⟨f, rfl⟩ : ∃ f, fuel = f + 1 :=
        ⟨fuel - 1, by have := jsizeItems_pos xs; omega⟩
      obtain ⟨ihJ, ihI, ihM⟩ := ih f (by omega)
      cases xs with
      | nil => exact absurd rfl hne
      | cons x xs2 =>
        cases xs2 with
        | nil =>
          rw [show stringifyItems [x] = stringify x from rfl]
          have hsz : jsize x ≤ f := by
            have h1 : jsizeItems [x] = 1 + jsize x + 1 := rfl
            omega
          exact parseItems_close_step f _ x rest
            (ihJ x (']' :: rest) hsz (Or.inr (Or.inl rfl)))
        | cons y ys =>
          rw [show stringifyItems (x :: y :: ys)
              = stringify x ++ ',' :: stringifyItems (y :: ys) from rfl,
            escapeJSONString_append, escapeJSONString_cons_safe ',' _ (by decide),
            List.append_assoc, List.cons_append]
          have hsz1 : jsize x ≤ f := by
            have h1 : jsizeItems (x :: y :: ys)
                = 1 + jsize x + jsizeItems (y :: ys) := rfl
            have h2 := jsizeItems_pos (y :: ys)
            omega
          have hsz2 : jsizeItems (y :: ys) ≤ f := by
            have h1 : jsizeItems (x :: y :: ys)
                = 1 + jsize x + jsizeItems (y :: ys) := rfl
            have h2 := jsize_pos x
            omega
          exact parseItems_comma_step f _ x _ rest (y :: ys)
            (ihJ x (',' :: (escapeJSONString (stringifyItems (y :: ys)) ++ ']' :: rest))
              hsz1 (Or.inl rfl))
            (ihI (y :: ys) rest (by simp) hsz2)
    · intro ms rest hne hsize
      obtain ⟨f, rfl⟩ : ∃ f, fuel = f + 1 :=
        ⟨fuel - 1, by have := jsizeMembers_pos ms; omega⟩
      obtain ⟨ihJ, ihI, ihM⟩ := ih f (by omega)
      cases ms with
      | nil => exact absurd rfl hne
      | cons m ms2 =>
        obtain ⟨k, v⟩ := m
        cases ms2 with
        | nil =>
          rw [show stringifyMembers [(k, v)]
              = jsonQuote k ++ (':' :: stringify v) from rfl,
            escapeJSONString_append, escQuote,
            escapeJSONString_cons_safe ':' _ (by decide)]
          have hshape : ((('"' :: (escapeJSONString (jsonEscString k) ++ ['"']))
              ++ (':' :: escapeJSONString (stringify v))) ++ '}' :: rest)
              = '"' :: (escapeJSONString (jsonEscString k)
                  ++ '"' :: (':' :: (escapeJSONString (stringify v) ++ '}' :: rest))) := by
            simp
          rw [hshape]
          have hsz : jsize v ≤ f := by
            have h1 : jsizeMembers [(k, v)] = 1 + jsize v + 1 := rfl
            omega
          exact parseMembers_close_step f _ k _ v rest
            (parseStringBody_escaped k (':' :: (escapeJSONString (stringify v) ++ '}' :: rest)))
            (ihJ v ('}' :: rest) hsz (Or.inr (Or.inr rfl)))
        | cons m2 ms3 =>
          obtain ⟨k2, v2⟩ := m2
          rw [show stringifyMembers ((k, v) :: (k2, v2) :: ms3)
              = jsonQuote k ++ ((':' :: stringify v)
                  ++ (',' :: stringifyMembers ((k2, v2) :: ms3)))
              from by simp [stringifyMembers],
            escapeJSONString_append, escQuote, escapeJSONString_append,
            escapeJSONString_cons_safe ':' _ (by decide),
            escapeJSONString_cons_safe ',' _ (by decide)]
          have hshape : ((('"' :: (escapeJSONString (jsonEscString k) ++ ['"']))
              ++ ((':' :: escapeJSONString (stringify v))
                  ++ (',' :: escapeJSONString (stringifyMembers ((k2, v2) :: ms3))))) ++ '}' :: rest)
              = '"' :: (escapeJSONString (jsonEscString k)
                  ++ '"' :: (':' :: (escapeJSONString (stringify v)
                      ++ ',' :: (escapeJSONString (stringifyMembers ((k2, v2) :: ms3))
                          ++ '}' :: rest)))) := by
            simp
          rw [hshape]
          have hsz1 : jsize v ≤ f := by
            have h1 : jsizeMembers ((k, v) :: (k2, v2) :: ms3)
                = 1 + jsize v + jsizeMembers ((k2, v2) :: ms3) := rfl
            have h2 := jsizeMembers_pos ((k2, v2) :: ms3)
            omega
          have hsz2 : jsizeMembers ((k2, v2) :: ms3) ≤ f := by
            have h1 : jsizeMembers ((k, v) :: (k2, v2) :: ms3)
                = 1 + jsize v + jsizeMembers ((k2, v2) :: ms3) := rfl
            have h2 := jsize_pos v
            omega
          exact parseMembers_comma_step f _ k _ v _ rest ((k2, v2) :: ms3)
            (parseStringBody_escaped k (':' :: (escapeJSONString (stringify v)
              ++ ',' :: (escapeJSONString (stringifyMembers ((k2, v2) :: ms3)) ++ '}' :: rest))))
            (ihJ v (',' :: (escapeJSONString (stringifyMembers ((k2, v2) :: ms3)) ++ '}' :: rest))
              hsz1 (Or.inl rfl))
            (ihM ((k2, v2) :: ms3) rest (by simp) hsz2)

/-- C5, confirmed.  For every JSON-serializable shoebox value `v`, the text
block `createShoebox` embeds (`shoeboxText v`, the shoebox-escaped
`JSON.stringify` of `v`) contains no occurrence of `<`, `>`, `&`, U+2028
or U+2029; and un-escaping the embedded text and JSON-parsing it — the
reader `parseJson`, whose string-literal unescaping is, as in
`JSON.parse`, part of parsing — reproduces the original value exactly,
for arbitrary nested JSON-serializable input. -/
theorem shoebox_escaping_roundtrip (v : Json) :
    (∀ c ∈ shoeboxText v, shoeboxUnsafe c = false)
    ∧ parseJson (jsize v) (shoeboxText v) = some (v, []) := by
  constructor
  · exact escapeJSONString_safe _
  · have h := (parse_roundtrip_aux (jsize v)).1 v [] (Nat.le_refl _) trivial
    rw [List.append_nil] at h
    exact h

/-- C5, witness: the round trip evaluated at a concrete value containing
characters the shoebox must escape. -/
theorem shoebox_escaping_roundtrip_witness :
    parseJson (jsize (Json.str ['<', '&'])) (shoeboxText (Json.str ['<', '&']))
      = some (Json.str ['<', '&'], []) :=
  (shoebox_escaping_roundtrip (Json.str ['<', '&'])).2
